import Mathlib

/-!
Verification of the caffeine-counter server against its specification.

Shallow embedding of `src/server.js` (session variant; the simpler variant in
`src/unnamed/part_000` shares the relevant handler bodies).  Times are modelled
as in the ECMAScript `Date` object with the server clock in UTC: an instant is
the integer number of milliseconds since the Unix epoch, and calendar fields
are derived from the proleptic Gregorian calendar.  Numbers carried by entries
(`caffeineMg`) are modelled as integers, so sums are exact as the spec demands
(fractional milligram amounts are outside the behaviour the claims exercise).

The first part develops the calendar arithmetic that backs `Date`'s
`getFullYear/getMonth/getDate`, `setDate/setMonth/setFullYear` (including the
field-overflow normalisation JS performs) and `toISOString`.  The second part
embeds the HTTP handlers the claims are about: `GET /api/caffeine-chart`,
`GET /api/leaderboard`, `POST /api/entries`, `DELETE /api/entries/:id`,
`GET /api/types`, `POST /api/types`, `DELETE /api/types/:id`.
-/

/-! ## Calendar core -/

/-- A civil (proleptic Gregorian) date: year, month `1..12`, day `1..31`. -/
structure Civil where
  year : Int
  month : Int
  day : Int
  deriving Repr, DecidableEq

/-- Gregorian leap-year predicate, as in ECMAScript `DaysInYear`. -/
def isLeap (y : Int) : Bool :=
  (y % 4 == 0 && y % 100 != 0) || y % 400 == 0

/-- Day count from the calendar origin to Jan 1 of year `y` (year 0 counts as
leap, proleptic Gregorian).  Only differences of `gdays` are meaningful. -/
def gdays (y : Int) : Int :=
  365 * y + (y - 1) / 4 - (y - 1) / 100 + (y - 1) / 400

/-- `1` on leap years, `0` otherwise. -/
def leapInt (y : Int) : Int :=
  if isLeap y then 1 else 0

/-- Days in the months strictly before month `m` (`1..12`) in a year with
leap correction `l` (`0` or `1`). -/
def monthOff (l : Int) (m : Int) : Int :=
  if m ≤ 1 then 0
  else if m = 2 then 31
  else if m = 3 then 59 + l
  else if m = 4 then 90 + l
  else if m = 5 then 120 + l
  else if m = 6 then 151 + l
  else if m = 7 then 181 + l
  else if m = 8 then 212 + l
  else if m = 9 then 243 + l
  else if m = 10 then 273 + l
  else if m = 11 then 304 + l
  else 334 + l

/-- Length of month `m` (`1..12`) in a year with leap correction `l`. -/
def monthLen (l : Int) (m : Int) : Int :=
  if m = 2 then 28 + l
  else if m = 4 ∨ m = 6 ∨ m = 9 ∨ m = 11 then 30
  else 31

/-- Month (`1..12`) containing day-of-year `doy` (`0`-based) for leap
correction `l`. -/
def monthFromDoy (l : Int) (doy : Int) : Int :=
  if doy < 31 then 1
  else if doy < 59 + l then 2
  else if doy < 90 + l then 3
  else if doy < 120 + l then 4
  else if doy < 151 + l then 5
  else if doy < 181 + l then 6
  else if doy < 212 + l then 7
  else if doy < 243 + l then 8
  else if doy < 273 + l then 9
  else if doy < 304 + l then 10
  else if doy < 334 + l then 11
  else 12

/-- Fuel-bounded upward search for the year containing `gdays`-position `zp`,
starting at `y` (which must already satisfy `gdays y ≤ zp`). -/
def yearFindGo : Nat → Int → Int → Int
  | 0, _, y => y
  | f + 1, zp, y => if gdays (y + 1) ≤ zp then yearFindGo f zp (y + 1) else y

/-- The year whose `[gdays y, gdays (y+1))` interval contains `zp`.  One
400-year era is at most 500 search steps, and the era start is located by a
single division, so fuel 500 always suffices. -/
def yearOfG (zp : Int) : Int :=
  yearFindGo 500 zp (400 * (zp / 146097))

/-- `gdays`-position of the Unix epoch day 1970-01-01. -/
def epochG : Int := gdays 1970

/-- Civil date of day number `z` (days since 1970-01-01, any integer). -/
def civilOfDay (z : Int) : Civil :=
  let zp := z + epochG
  let y := yearOfG zp
  let doy := zp - gdays y
  let m := monthFromDoy (leapInt y) doy
  ⟨y, m, doy - monthOff (leapInt y) m + 1⟩

/-- Day number (days since 1970-01-01) of a civil date. -/
def dayOfCivil (y m d : Int) : Int :=
  gdays y + monthOff (leapInt y) m + (d - 1) - epochG

/-! ## JS `Date` instants

An instant is an integer count of milliseconds since the Unix epoch.  The
server clock is taken to be UTC, so "local" midnight is UTC midnight and
`toISOString` renders the same civil date the getters return. -/

def msPerDay : Int := 86400000

/-- Day number (days since 1970-01-01) containing instant `t`. -/
def dayOf (t : Int) : Int := t / msPerDay

/-- Milliseconds since midnight of instant `t`. -/
def msOf (t : Int) : Int := t % msPerDay

/-- Civil date of instant `t`. -/
def civilOf (t : Int) : Civil := civilOfDay (dayOf t)

/-- `d.getFullYear()` -/
def jsGetFullYear (t : Int) : Int := (civilOf t).year

/-- `d.getMonth()` (0-based month index) -/
def jsGetMonth (t : Int) : Int := (civilOf t).month - 1

/-- `d.getDate()` (1-based day of month) -/
def jsGetDate (t : Int) : Int := (civilOf t).day

/-- `d.setHours(0,0,0,0)`: truncate the instant to midnight. -/
def jsSetHours0 (t : Int) : Int := msPerDay * dayOf t

/-- ECMAScript `MakeDay(y, m, d)`: the day number for year `y`, 0-based month
`m` (normalised into the year by floor-division) and day-of-month `d`, which
may lie outside the month and then rolls over. -/
def makeDay (y m d : Int) : Int :=
  dayOfCivil (y + m / 12) (m % 12 + 1) 1 + (d - 1)

/-- `d.setDate(n)` -/
def jsSetDate (t n : Int) : Int :=
  msPerDay * makeDay (jsGetFullYear t) (jsGetMonth t) n + msOf t

/-- `d.setMonth(m)` -/
def jsSetMonth (t m : Int) : Int :=
  msPerDay * makeDay (jsGetFullYear t) m (jsGetDate t) + msOf t

/-- `d.setMonth(m, day)` -/
def jsSetMonthDay (t m day : Int) : Int :=
  msPerDay * makeDay (jsGetFullYear t) m day + msOf t

/-- `d.setFullYear(y)` -/
def jsSetFullYear (t y : Int) : Int :=
  msPerDay * makeDay y (jsGetMonth t) (jsGetDate t) + msOf t

/-- `new Date(y, m, d)`: midnight of the given calendar position. -/
def jsNewDateYMD (y m d : Int) : Int := msPerDay * makeDay y m d

/-- Linear month index used to count monthly buckets. -/
def monthIdx (c : Civil) : Int := 12 * c.year + (c.month - 1)

/-! ## Decimal rendering and label/key strings -/

/-- Little-endian decimal digits of `n` (`[]` when `n = 0`), fuel-bounded. -/
def digitsRev : Nat → Nat → List Nat
  | 0, _ => []
  | f + 1, n => if n = 0 then [] else n % 10 :: digitsRev f (n / 10)

/-- Value of a little-endian digit list. -/
def ofDigitsRev : List Nat → Nat
  | [] => 0
  | d :: ds => d + 10 * ofDigitsRev ds

/-- JS decimal rendering of a natural number. -/
def natDecimal (n : Nat) : String :=
  if n = 0 then "0" else String.mk ((digitsRev n n).reverse.map Nat.digitChar)

/-- JS decimal rendering of an integer (`String(n)` / `n.toString()`). -/
def intDecimal (i : Int) : String :=
  if i < 0 then "-" ++ natDecimal (-i).toNat else natDecimal i.toNat

/-- `en-US` short month name of a 0-based month index
(`toLocaleDateString` with `month: "short"`). -/
def monthShortName (m : Int) : String :=
  if m = 0 then "Jan" else if m = 1 then "Feb" else if m = 2 then "Mar"
  else if m = 3 then "Apr" else if m = 4 then "May" else if m = 5 then "Jun"
  else if m = 6 then "Jul" else if m = 7 then "Aug" else if m = 8 then "Sep"
  else if m = 9 then "Oct" else if m = 10 then "Nov" else "Dec"

/-- `s.padStart(k, "0")`. -/
def padZero (k : Nat) (s : String) : String :=
  String.mk (List.replicate (k - s.length) '0') ++ s

/-- The year field of `toISOString`: zero-padded to four digits, expanded
(sign and six digits) outside `[0, 9999]`. -/
def isoYearStr (y : Int) : String :=
  if 0 ≤ y ∧ y ≤ 9999 then padZero 4 (natDecimal y.toNat)
  else if y < 0 then "-" ++ padZero 6 (natDecimal (-y).toNat)
  else "+" ++ padZero 6 (natDecimal y.toNat)

/-- `d.toISOString().slice(0, 10)` under a UTC clock: the `YYYY-MM-DD` key the
chart uses for daily buckets. -/
def isoDayKey (t : Int) : String :=
  (isoYearStr (civilOf t).year ++ "-" ++ padZero 2 (intDecimal (civilOf t).month)
    ++ "-" ++ padZero 2 (intDecimal (civilOf t).day)).take 10

/-- `` `${d.getFullYear()}-${String(d.getMonth() + 1).padStart(2, "0")}` ``,
the monthly bucket key. -/
def jsMonthKey (t : Int) : String :=
  intDecimal (jsGetFullYear t) ++ "-" ++ padZero 2 (intDecimal (jsGetMonth t + 1))

/-- `` `${d.getFullYear()}` ``, the yearly bucket key. -/
def jsYearKey (t : Int) : String :=
  intDecimal (jsGetFullYear t)

/-- `toLocaleDateString("en-US", { month: "short", day: "numeric" })`. -/
def fmtMonthDay (t : Int) : String :=
  monthShortName (jsGetMonth t) ++ " " ++ intDecimal (jsGetDate t)

/-- `toLocaleDateString("en-US", { month: "short" })`. -/
def fmtMonth (t : Int) : String :=
  monthShortName (jsGetMonth t)

/-- `toLocaleDateString("en-US", { month: "short", year: "numeric" })`. -/
def fmtMonthYear (t : Int) : String :=
  monthShortName (jsGetMonth t) ++ " " ++ intDecimal (jsGetFullYear t)

/-- `d.getFullYear().toString()`. -/
def fmtYear (t : Int) : String :=
  intDecimal (jsGetFullYear t)

/-! ## Data model -/

/-- A persisted caffeine entry (schema of the `entries` collection, session
variant), together with its server-assigned `_id`. -/
structure CaffeineEntry where
  id : String
  drinkName : String
  sizeName : String
  fullName : String
  caffeineMg : Int
  customDescription : String
  timestamp : Int
  isCustomDrink : Bool
  userId : String
  userName : String
  userAvatar : Option String
  deriving Repr, DecidableEq

/-! ## Chart endpoint (`GET /api/caffeine-chart`) -/

inductive Step
  | day
  | month
  | year
  deriving Repr, DecidableEq

inductive ChartPeriod
  | week
  | month
  | year
  | all
  deriving Repr, DecidableEq

structure ChartCfg where
  startDate : Int
  step : Step
  fmt : Int → String

structure ChartOut where
  labels : List String
  values : List Int
  deriving Repr, DecidableEq

/-- Earliest stored timestamp (`findOne().sort({ timestamp: 1 })`). -/
def minTs (entries : List CaffeineEntry) : Option Int :=
  (entries.map (fun e => e.timestamp)).min?

/-- Latest stored timestamp (`findOne().sort({ timestamp: -1 })`). -/
def maxTs (entries : List CaffeineEntry) : Option Int :=
  (entries.map (fun e => e.timestamp)).max?

/-- The `switch (period)` of the chart handler: start of range, step size and
label formatter; `none` is the early `{ labels: [], values: [] }` return for
`period=all` with an empty store. -/
def chartPlan (period : ChartPeriod) (now : Int) (entries : List CaffeineEntry) :
    Option ChartCfg :=
  let today := jsSetHours0 now
  match period with
  | .week => some ⟨jsSetDate today (jsGetDate today - 6), .day, fmtMonthDay⟩
  | .month => some ⟨jsSetDate today (jsGetDate today - 29), .day, fmtMonthDay⟩
  | .year => some ⟨jsSetFullYear today (jsGetFullYear today - 1), .month, fmtMonth⟩
  | .all =>
      match minTs entries, maxTs entries with
      | some e0, some e1 =>
          let startDate := jsSetHours0 e0
          let endDate := jsSetHours0 e1
          let daysSpan := (endDate - startDate) / msPerDay + 1
          if daysSpan ≤ 90 then some ⟨startDate, .day, fmtMonthDay⟩
          else if daysSpan ≤ 18 * 30 then some ⟨jsSetDate startDate 1, .month, fmtMonthYear⟩
          else some ⟨jsNewDateYMD (jsGetFullYear startDate) 0 1, .year, fmtYear⟩
      | _, _ => none

/-- Bucket key of an entry: its timestamp truncated to the step granularity
(the `entries.forEach` of the handler). -/
def entryBucketKey (step : Step) (ts : Int) : String :=
  match step with
  | .day => isoDayKey (jsSetHours0 ts)
  | .month => jsMonthKey (jsSetHours0 (jsSetDate ts 1))
  | .year => jsYearKey (jsSetHours0 (jsSetMonthDay ts 0 1))

/-- Bucket key of an axis position (recomputed in each loop iteration). -/
def axisBucketKey (step : Step) (t : Int) : String :=
  match step with
  | .day => isoDayKey t
  | .month => jsMonthKey t
  | .year => jsYearKey t

/-- `if (!buckets[key]) buckets[key] = 0; buckets[key] += entry.caffeineMg`. -/
def bumpBucket : List (String × Int) → String → Int → List (String × Int)
  | [], k, v => [(k, v)]
  | (k', v') :: rest, k, v =>
      if k' = k then (k', v' + v) :: rest else (k', v') :: bumpBucket rest k v

/-- `buckets[key] || 0`. -/
def bucketLookup : List (String × Int) → String → Int
  | [], _ => 0
  | (k', v) :: rest, k => if k' = k then v else bucketLookup rest k

/-- Group the fetched entries in memory. -/
def buildBuckets (step : Step) (es : List CaffeineEntry) : List (String × Int) :=
  es.foldl (fun m e => bumpBucket m (entryBucketKey step e.timestamp) e.caffeineMg) []

/-- `timestamp: { $gte: startDate, $lte: now }`. -/
def inWindow (s now : Int) (e : CaffeineEntry) : Bool :=
  decide (s ≤ e.timestamp) && decide (e.timestamp ≤ now)

/-- The daily axis walk `for (let d = new Date(startDate); d <= today;
d.setDate(d.getDate() + 1))`, fuel-bounded. -/
def dayAxisGo : Nat → Int → Int → List Int
  | 0, _, _ => []
  | f + 1, d, today =>
      if d ≤ today then d :: dayAxisGo f (jsSetDate d (jsGetDate d + 1)) today else []

/-- The monthly axis walk (`iter.setMonth(iter.getMonth() + 1)`). -/
def monthAxisGo : Nat → Int → Int → List Int
  | 0, _, _ => []
  | f + 1, iter, today =>
      if iter ≤ today then
        iter :: monthAxisGo f (jsSetMonth iter (jsGetMonth iter + 1)) today
      else []

/-- The yearly axis walk (`iter.setFullYear(iter.getFullYear() + 1)`). -/
def yearAxisGo : Nat → Int → Int → List Int
  | 0, _, _ => []
  | f + 1, iter, today =>
      if iter ≤ today then
        iter :: yearAxisGo f (jsSetFullYear iter (jsGetFullYear iter + 1)) today
      else []

/-- Fuel that strictly exceeds the number of loop iterations for every step
size (each step advances the iterator by at least one day). -/
def axisFuel (startDate today : Int) : Nat :=
  ((today - startDate) / msPerDay + 2).toNat

/-- The emitted axis positions for a step size and range. -/
def chartAxis (step : Step) (startDate today : Int) : List Int :=
  match step with
  | .day => dayAxisGo (axisFuel startDate today) startDate today
  | .month => monthAxisGo (axisFuel startDate today) startDate today
  | .year => yearAxisGo (axisFuel startDate today) startDate today

/-- `GET /api/caffeine-chart`: the `{ labels, values }` response. -/
def caffeineChart (period : ChartPeriod) (now : Int) (entries : List CaffeineEntry) :
    ChartOut :=
  match chartPlan period now entries with
  | none => ⟨[], []⟩
  | some plan =>
      let windowed := entries.filter (inWindow plan.startDate now)
      let buckets := buildBuckets plan.step windowed
      let axis := chartAxis plan.step plan.startDate (jsSetHours0 now)
      ⟨axis.map plan.fmt, axis.map (fun d => bucketLookup buckets (axisBucketKey plan.step d))⟩

/-- Day number of the first day of the month with linear index `k`
(`k = 12 * year + month0`). -/
def monthStartDay (k : Int) : Int :=
  dayOfCivil (k / 12) (k % 12 + 1) 1

/-- Day number of Jan 1 of year `y`. -/
def yearStartDay (y : Int) : Int := dayOfCivil y 1 1

/-- Modelled from the spec's words (§8): "the exact count of calendar steps
between the computed start and end of range, inclusive". -/
def calendarStepsInclusive (step : Step) (startDate endDate : Int) : Int :=
  match step with
  | .day => dayOf endDate - dayOf startDate + 1
  | .month => monthIdx (civilOf endDate) - monthIdx (civilOf startDate) + 1
  | .year => (civilOf endDate).year - (civilOf startDate).year + 1

/-! ## Leaderboard endpoint (`GET /api/leaderboard`) -/

/-- One aggregated output element of the leaderboard pipeline. -/
structure LeaderRow where
  userId : String
  totalCaffeine : Int
  entryCount : Nat
  userName : String
  userAvatar : Option String
  deriving Repr, DecidableEq

/-- First entry of a group (`$first` on the pipeline's input order). -/
def rowOf (e : CaffeineEntry) : LeaderRow :=
  ⟨e.userId, e.caffeineMg, 1, e.userName, e.userAvatar⟩

/-- Accumulate one more entry into an existing group. -/
def bumpRow (r : LeaderRow) (e : CaffeineEntry) : LeaderRow :=
  ⟨r.userId, r.totalCaffeine + e.caffeineMg, r.entryCount + 1, r.userName, r.userAvatar⟩

/-- `$group: { _id: "$userId", ... }`, grouping in order of first
appearance. -/
def addToGroup : List LeaderRow → CaffeineEntry → List LeaderRow
  | [], e => [rowOf e]
  | r :: rest, e =>
      if r.userId = e.userId then bumpRow r e :: rest else r :: addToGroup rest e

def groupByUser (es : List CaffeineEntry) : List LeaderRow :=
  es.foldl addToGroup []

inductive LeaderPeriod
  | week
  | month
  | year
  | all
  deriving Repr, DecidableEq

/-- The `$gte` cutoff of the `switch (period)`; `none` is "no date filter". -/
def leaderCutoff (period : LeaderPeriod) (now : Int) : Option Int :=
  match period with
  | .week => some (jsSetDate now (jsGetDate now - 7))
  | .month => some (jsSetMonth now (jsGetMonth now - 1))
  | .year => some (jsSetFullYear now (jsGetFullYear now - 1))
  | .all => none

def leaderFilter (period : LeaderPeriod) (now : Int) (e : CaffeineEntry) : Bool :=
  match leaderCutoff period now with
  | none => true
  | some c => decide (c ≤ e.timestamp)

/-- Insert into a list kept sorted by `totalCaffeine` descending. -/
def insertDesc (r : LeaderRow) : List LeaderRow → List LeaderRow
  | [] => [r]
  | x :: xs =>
      if x.totalCaffeine ≤ r.totalCaffeine then r :: x :: xs else x :: insertDesc r xs

/-- `$sort: { totalCaffeine: -1 }` (insertion sort; the pipeline's tie order
is unspecified). -/
def sortDesc : List LeaderRow → List LeaderRow
  | [] => []
  | r :: rs => insertDesc r (sortDesc rs)

/-- `GET /api/leaderboard`: match, group, sort by `totalCaffeine` descending,
limit 50. -/
def leaderboard (period : LeaderPeriod) (now : Int) (entries : List CaffeineEntry) :
    List LeaderRow :=
  (sortDesc (groupByUser (entries.filter (leaderFilter period now)))).take 50

/-! ## Entry and drink-type CRUD -/

/-- JS String.prototype.trim: strip leading and trailing whitespace (modelled
over the character list; `String.trim` of core is not used because its
byte-position recursion does not reduce in the kernel). -/
def strTrim (s : String) : String :=
  ⟨((s.data.dropWhile Char.isWhitespace).reverse.dropWhile Char.isWhitespace).reverse⟩

/-- The session user (`req.session.user`). -/
structure SessionUser where
  googleId : String
  email : String
  name : String
  picture : Option String
  deriving Repr, DecidableEq

/-- Request body of `POST /api/entries` (absent fields are `none`). -/
structure EntryBody where
  drinkName : Option String
  sizeName : Option String
  caffeineMg : Option Int
  customDescription : Option String
  isCustomDrink : Option Bool
  deriving Repr, DecidableEq

/-- JS falsiness of an optional string (`!s`): absent or empty. -/
def strFalsy : Option String → Bool
  | none => true
  | some s => decide (s = "")

/-- JS falsiness of an optional number (`!n`): absent or zero. -/
def numFalsy : Option Int → Bool
  | none => true
  | some n => decide (n = 0)

/-- `POST /api/entries` (session variant; the simple variant in
`src/unnamed/part_000` differs only in the absent user fields): returns the
HTTP status and the resulting entry store. -/
def postEntries (store : List CaffeineEntry) (user : SessionUser) (body : EntryBody)
    (now : Int) (newId : String) : Nat × List CaffeineEntry :=
  if strFalsy body.drinkName || strFalsy body.sizeName || numFalsy body.caffeineMg ||
      decide (body.caffeineMg.getD 0 ≤ 0) then
    (400, store)
  else
    let drinkName := body.drinkName.getD ""
    let sizeName := body.sizeName.getD ""
    let fullName := sizeName ++ " " ++ drinkName
    (201, store ++ [⟨newId, strTrim drinkName, strTrim sizeName, strTrim fullName,
      body.caffeineMg.getD 0,
      (match body.customDescription with
        | none => ""
        | some c => if c = "" then "" else strTrim c),
      now, body.isCustomDrink.getD false, user.googleId, user.name, user.picture⟩])

/-- `CaffeineEntry.findById(id)`. -/
def findEntry (store : List CaffeineEntry) (id : String) : Option CaffeineEntry :=
  store.find? (fun e => decide (e.id = id))

/-- `CaffeineEntry.findByIdAndDelete(id)`: drop the document with this id. -/
def removeById : List CaffeineEntry → String → List CaffeineEntry
  | [], _ => []
  | e :: rest, id => if e.id = id then rest else e :: removeById rest id

/-- `DELETE /api/entries/:id` (session variant, ownership-gated). -/
def deleteEntry (store : List CaffeineEntry) (user : SessionUser) (id : String) :
    Nat × List CaffeineEntry :=
  match findEntry store id with
  | none => (404, store)
  | some e =>
      if e.userId ≠ user.googleId then (403, store) else (200, removeById store id)

/-- A stored size variant. -/
structure SizeVariantDoc where
  name : String
  caffeineMg : Int
  deriving Repr, DecidableEq

/-- A stored drink type (session variant, with the soft-delete flag). -/
structure DrinkTypeDoc where
  id : String
  name : String
  imageUrl : String
  sizes : List SizeVariantDoc
  deleted : Bool
  deriving Repr, DecidableEq

/-- Insert into a list kept sorted by `name` ascending. -/
def insertByName (d : DrinkTypeDoc) : List DrinkTypeDoc → List DrinkTypeDoc
  | [] => [d]
  | x :: xs => if x.name < d.name then x :: insertByName d xs else d :: x :: xs

/-- `.sort({ name: 1 })`. -/
def sortByName : List DrinkTypeDoc → List DrinkTypeDoc
  | [] => []
  | d :: ds => insertByName d (sortByName ds)

/-- `GET /api/types` (session variant): non-deleted types, name ascending. -/
def getTypes (store : List DrinkTypeDoc) : List DrinkTypeDoc :=
  sortByName (store.filter (fun d => d.deleted = false))

/-- Request body of `POST /api/types`. -/
structure SizeBody where
  name : Option String
  caffeineMg : Option Int
  deriving Repr, DecidableEq

structure TypeBody where
  name : Option String
  imageUrl : Option String
  sizes : Option (List SizeBody)
  deriving Repr, DecidableEq

/-- `POST /api/types` (session variant).  The duplicate check
`DrinkType.findOne({ name: name.trim() })` runs over the whole collection,
soft-deleted documents included. -/
def postTypes (store : List DrinkTypeDoc) (body : TypeBody) (newId : String) :
    Nat × List DrinkTypeDoc :=
  if strFalsy body.name || decide (body.sizes = none) ||
      decide ((body.sizes.getD []).length = 0) then
    (400, store)
  else if (body.sizes.getD []).any (fun s =>
      strFalsy s.name || numFalsy s.caffeineMg || decide (s.caffeineMg.getD 0 ≤ 0)) then
    (400, store)
  else
    match store.find? (fun d => decide (d.name = strTrim (body.name.getD ""))) with
    | some _ => (400, store)
    | none =>
        (201, store ++ [⟨newId, strTrim (body.name.getD ""),
          (match body.imageUrl with
            | none => "/images/noImage.png"
            | some u => if u = "" then "/images/noImage.png" else strTrim u),
          (body.sizes.getD []).map (fun s => ⟨strTrim (s.name.getD ""), s.caffeineMg.getD 0⟩),
          false⟩])

/-- `drink.deleted = true; await drink.save()` on the found document. -/
def setDeletedById : List DrinkTypeDoc → String → List DrinkTypeDoc
  | [], _ => []
  | d :: rest, id =>
      if d.id = id then { d with deleted := true } :: rest else d :: setDeletedById rest id

/-- `DELETE /api/types/:id` (session variant, soft delete). -/
def deleteType (store : List DrinkTypeDoc) (id : String) : Nat × List DrinkTypeDoc :=
  match store.find? (fun d => decide (d.id = id)) with
  | none => (404, store)
  | some d =>
      if d.deleted then (400, store) else (200, setDeletedById store id)


/-! ## Theorems -/

/-! ### Calendar lemmas -/

theorem isLeap_iff (y : Int) :
    isLeap y = true ↔ (y % 4 = 0 ∧ y % 100 ≠ 0) ∨ y % 400 = 0 := by
  simp [isLeap]

theorem leapInt_bound (y : Int) : 0 ≤ leapInt y ∧ leapInt y ≤ 1 := by
  unfold leapInt
  split <;> omega

theorem gdays_step (y : Int) :
    gdays (y + 1) - gdays y = 365 + leapInt y := by
  unfold leapInt
  rcases Bool.eq_false_or_eq_true (isLeap y) with h | h
  · have h2 : (y % 4 = 0 ∧ y % 100 ≠ 0) ∨ y % 400 = 0 := (isLeap_iff y).mp h
    rw [h]
    simp only [if_true, gdays]
    rw [show (y : Int) + 1 - 1 = y from by ring]
    omega
  · have h2 : ¬ ((y % 4 = 0 ∧ y % 100 ≠ 0) ∨ y % 400 = 0) := by
      intro hc
      rw [← isLeap_iff y, h] at hc
      exact absurd hc (by simp)
    rw [h]
    simp only [Bool.false_eq_true, if_false, gdays]
    rw [show (y : Int) + 1 - 1 = y from by ring]
    omega

theorem gdays_mono_ge (y : Int) (n : Nat) :
    gdays y + 365 * n ≤ gdays (y + n) := by
  induction n with
  | zero => simp
  | succ k ih =>
      have h := gdays_step (y + k)
      have hl := leapInt_bound (y + k)
      have : (((k : Nat) + 1 : Nat) : Int) = (k : Int) + 1 := by push_cast; ring
      rw [this]
      have : y + ((k : Int) + 1) = (y + k) + 1 := by ring
      rw [this]
      omega

theorem yearFindGo_spec (f : Nat) (zp : Int) : ∀ y : Int,
    gdays y ≤ zp → zp < gdays (y + f) →
    gdays (yearFindGo f zp y) ≤ zp ∧ zp < gdays (yearFindGo f zp y + 1) := by
  induction f with
  | zero => intro y h0 h1; simp at h1; omega
  | succ f ih =>
      intro y h0 h1
      rw [yearFindGo]
      by_cases h : gdays (y + 1) ≤ zp
      · rw [if_pos h]
        apply ih (y + 1) h
        have : y + 1 + (f : Int) = y + ((f : Nat) + 1 : Nat) := by push_cast; ring
        rw [this]; exact h1
      · rw [if_neg h]; omega

theorem yearOfG_spec (zp : Int) :
    gdays (yearOfG zp) ≤ zp ∧ zp < gdays (yearOfG zp + 1) := by
  have hk : 146097 * (zp / 146097) ≤ zp ∧ zp < 146097 * (zp / 146097) + 146097 := by
    omega
  set k := zp / 146097 with hkdef
  apply yearFindGo_spec
  · have e1 : (400 * k - 1) / 4 = 100 * k - 1 := by omega
    have e2 : (400 * k - 1) / 100 = 4 * k - 1 := by omega
    have e3 : (400 * k - 1) / 400 = k - 1 := by omega
    simp only [gdays, e1, e2, e3]
    omega
  · have e1 : (400 * k + 500 - 1) / 4 = 100 * k + 124 := by omega
    have e2 : (400 * k + 500 - 1) / 100 = 4 * k + 4 := by omega
    have e3 : (400 * k + 500 - 1) / 400 = k + 1 := by omega
    have : (400 * k + (500 : Nat)) = 400 * k + 500 := by push_cast; ring
    rw [this]
    simp only [gdays, e1, e2, e3]
    omega

theorem gdays_strict_mono {a b : Int} (h : a < b) : gdays a < gdays b := by
  have hn : b = a + ((b - a).toNat : Int) := by omega
  have := gdays_mono_ge a (b - a).toNat
  rw [← hn] at this
  omega

/-- The interval `[gdays y, gdays (y+1))` determines `y` uniquely. -/
theorem year_unique {a b zp : Int}
    (ha : gdays a ≤ zp ∧ zp < gdays (a + 1))
    (hb : gdays b ≤ zp ∧ zp < gdays (b + 1)) : a = b := by
  by_contra hne
  rcases lt_or_gt_of_ne hne with h | h
  · have := gdays_strict_mono (show a < a + 1 by omega)
    have h2 : a + 1 ≤ b := by omega
    rcases eq_or_lt_of_le h2 with he | hlt
    · rw [← he] at hb; omega
    · have := gdays_strict_mono hlt; omega
  · have h2 : b + 1 ≤ a := by omega
    rcases eq_or_lt_of_le h2 with he | hlt
    · rw [← he] at ha; omega
    · have := gdays_strict_mono hlt; omega

set_option maxHeartbeats 1000000 in
theorem monthFromDoy_spec (l doy : Int) (h0 : 0 ≤ doy) (h1 : doy < 365 + l) :
    1 ≤ monthFromDoy l doy ∧ monthFromDoy l doy ≤ 12 ∧
    monthOff l (monthFromDoy l doy) ≤ doy ∧
    doy < monthOff l (monthFromDoy l doy) + monthLen l (monthFromDoy l doy) := by
  simp only [monthFromDoy, monthOff, monthLen]
  omega

set_option maxHeartbeats 1000000 in
theorem monthOff_monthLen_bound (l m : Int) (h1 : 1 ≤ m) (h2 : m ≤ 12) (hl : 0 ≤ l) :
    0 ≤ monthOff l m ∧ monthOff l m + monthLen l m ≤ 365 + l := by
  simp only [monthOff, monthLen]
  omega

set_option maxHeartbeats 1000000 in
theorem monthFromDoy_monthOff (l m d : Int) (h1 : 1 ≤ m) (h2 : m ≤ 12)
    (h3 : 1 ≤ d) (h4 : d ≤ monthLen l m) (hl : 0 ≤ l) :
    monthFromDoy l (monthOff l m + d - 1) = m := by
  simp only [monthLen] at h4
  simp only [monthOff, monthFromDoy]
  omega

theorem civilOfDay_roundtrip (z : Int) :
    dayOfCivil (civilOfDay z).year (civilOfDay z).month (civilOfDay z).day = z := by
  simp only [civilOfDay, dayOfCivil]
  ring

theorem civilOfDay_valid (z : Int) :
    1 ≤ (civilOfDay z).month ∧ (civilOfDay z).month ≤ 12 ∧
    1 ≤ (civilOfDay z).day ∧
    (civilOfDay z).day ≤ monthLen (leapInt (civilOfDay z).year) (civilOfDay z).month := by
  obtain ⟨h0, h1⟩ := yearOfG_spec (z + epochG)
  have hstep := gdays_step (yearOfG (z + epochG))
  have hl := leapInt_bound (yearOfG (z + epochG))
  have hd : 0 ≤ z + epochG - gdays (yearOfG (z + epochG)) ∧
      z + epochG - gdays (yearOfG (z + epochG)) <
        365 + leapInt (yearOfG (z + epochG)) := by omega
  have hm := monthFromDoy_spec (leapInt (yearOfG (z + epochG)))
    (z + epochG - gdays (yearOfG (z + epochG))) hd.1 hd.2
  simp only [civilOfDay]
  refine ⟨hm.1, hm.2.1, by omega, by omega⟩

theorem dayOfCivil_roundtrip (y m d : Int) (hm1 : 1 ≤ m) (hm2 : m ≤ 12)
    (hd1 : 1 ≤ d) (hd2 : d ≤ monthLen (leapInt y) m) :
    civilOfDay (dayOfCivil y m d) = ⟨y, m, d⟩ := by
  have hl := leapInt_bound y
  have hoff := monthOff_monthLen_bound (leapInt y) m hm1 hm2 hl.1
  have hstep := gdays_step y
  have hzp : dayOfCivil y m d + epochG = gdays y + monthOff (leapInt y) m + d - 1 := by
    simp only [dayOfCivil]; ring
  have hy : yearOfG (dayOfCivil y m d + epochG) = y := by
    apply year_unique (yearOfG_spec _)
    constructor
    · rw [hzp]; omega
    · rw [hzp]; omega
  have hmm := monthFromDoy_monthOff (leapInt y) m d hm1 hm2 hd1 hd2 hl.1
  simp only [civilOfDay, hy]
  rw [show dayOfCivil y m d + epochG - gdays y = monthOff (leapInt y) m + d - 1 from by
    simp only [dayOfCivil]; ring]
  rw [hmm]
  simp only [Civil.mk.injEq]
  refine ⟨trivial, trivial, by ring⟩

/-! ### Instant lemmas -/

theorem msPerDay_pos : 0 < msPerDay := by decide

theorem day_ms_split (t : Int) : msPerDay * dayOf t + msOf t = t ∧
    0 ≤ msOf t ∧ msOf t < msPerDay := by
  unfold dayOf msOf msPerDay
  omega

theorem jsSetHours0_le (t : Int) :
    jsSetHours0 t ≤ t ∧ t < jsSetHours0 t + msPerDay ∧
    dayOf (jsSetHours0 t) = dayOf t ∧ msOf (jsSetHours0 t) = 0 := by
  unfold jsSetHours0 dayOf msOf msPerDay
  omega

theorem dayOf_midnight (z : Int) : dayOf (msPerDay * z) = z ∧ msOf (msPerDay * z) = 0 := by
  unfold dayOf msOf msPerDay
  omega

/-- `makeDay` applied to the civil fields of day `z`, with the day-of-month
replaced by `n`, lands `n - day` days away from `z`. -/
theorem makeDay_same_month (z n : Int) :
    makeDay (civilOfDay z).year ((civilOfDay z).month - 1) n =
      z + (n - (civilOfDay z).day) := by
  obtain ⟨hm1, hm2, hd1, hd2⟩ := civilOfDay_valid z
  have hdiv : ((civilOfDay z).month - 1) / 12 = 0 := by omega
  have hmod : ((civilOfDay z).month - 1) % 12 = (civilOfDay z).month - 1 := by omega
  have hrt := civilOfDay_roundtrip z
  unfold makeDay
  rw [hdiv, hmod]
  rw [show (civilOfDay z).month - 1 + 1 = (civilOfDay z).month from by ring]
  rw [show (civilOfDay z).year + 0 = (civilOfDay z).year from by ring]
  unfold dayOfCivil at hrt ⊢
  omega

/-- `d.setDate(d.getDate() + k)` simply shifts the instant by `k` days. -/
theorem jsSetDate_shift (t k : Int) :
    jsSetDate t (jsGetDate t + k) = t + k * msPerDay := by
  unfold jsSetDate jsGetFullYear jsGetMonth jsGetDate civilOf
  rw [makeDay_same_month]
  have := day_ms_split t
  ring_nf
  omega

/-- `d.setDate(1)` moves a midnight instant to the first of its month. -/
theorem jsSetDate_one (t : Int) :
    jsSetDate t 1 = t - ((civilOf t).day - 1) * msPerDay := by
  unfold jsSetDate jsGetFullYear jsGetMonth civilOf
  rw [makeDay_same_month]
  have := day_ms_split t
  ring_nf
  omega

theorem civilOf_valid (t : Int) :
    1 ≤ (civilOf t).month ∧ (civilOf t).month ≤ 12 ∧
    1 ≤ (civilOf t).day ∧
    (civilOf t).day ≤ monthLen (leapInt (civilOf t).year) (civilOf t).month :=
  civilOfDay_valid (dayOf t)

theorem civilOf_roundtrip (t : Int) :
    dayOfCivil (civilOf t).year (civilOf t).month (civilOf t).day = dayOf t :=
  civilOfDay_roundtrip (dayOf t)

theorem monthLen_bound (l m : Int) (hl : 0 ≤ l) (hl2 : l ≤ 1) :
    28 ≤ monthLen l m ∧ monthLen l m ≤ 31 := by
  simp only [monthLen]
  omega

theorem dayOfCivil_next_month (y m : Int) (h1 : 1 ≤ m) (h2 : m ≤ 11) :
    dayOfCivil y (m + 1) 1 = dayOfCivil y m 1 + monthLen (leapInt y) m := by
  have hl := leapInt_bound y
  simp only [dayOfCivil, monthOff, monthLen]
  omega

theorem dayOfCivil_year_wrap (y : Int) :
    dayOfCivil (y + 1) 1 1 = dayOfCivil y 12 1 + 31 := by
  have hstep := gdays_step y
  have hl := leapInt_bound y
  have hl2 := leapInt_bound (y + 1)
  simp only [dayOfCivil, monthOff]
  omega

theorem dayOfCivil_linear (y m d : Int) :
    dayOfCivil y m d = dayOfCivil y m 1 + (d - 1) := by
  simp only [dayOfCivil]
  ring

/-- `MakeDay` with the civil month bumped by one advances by the length of the
current month (uniformly, including the December wrap). -/
theorem makeDay_next_month (y m d : Int) (h1 : 1 ≤ m) (h2 : m ≤ 12) :
    makeDay y m d = dayOfCivil y m d + monthLen (leapInt y) m := by
  by_cases h12 : m = 12
  · subst h12
    have hw := dayOfCivil_year_wrap y
    have hlen : monthLen (leapInt y) 12 = 31 := by simp only [monthLen]; norm_num
    unfold makeDay
    norm_num
    rw [hw, hlen, dayOfCivil_linear y 12 d]
    ring
  · have hdiv : m / 12 = 0 := by omega
    have hmod : m % 12 = m := by omega
    unfold makeDay
    rw [hdiv, hmod]
    rw [show y + 0 = y from by ring]
    rw [dayOfCivil_next_month y m h1 (by omega), dayOfCivil_linear y m d]
    ring

/-- `iter.setMonth(iter.getMonth() + 1)` advances the instant by exactly the
length of the current month. -/
theorem jsSetMonth_next (t : Int) :
    jsSetMonth t (jsGetMonth t + 1) =
      t + monthLen (leapInt (civilOf t).year) (civilOf t).month * msPerDay := by
  obtain ⟨hm1, hm2, _, _⟩ := civilOf_valid t
  have hmk := makeDay_next_month (civilOf t).year (civilOf t).month (civilOf t).day hm1 hm2
  have hrt := civilOf_roundtrip t
  have hsplit := day_ms_split t
  unfold jsSetMonth jsGetFullYear jsGetMonth jsGetDate
  rw [show (civilOf t).month - 1 + 1 = (civilOf t).month from by ring, hmk, hrt]
  unfold msPerDay at *
  ring_nf
  omega

/-- On a midnight instant sitting on day 1 of its month, the month-axis step
stays at midnight on day 1 and bumps the month index by one. -/
theorem jsSetMonth_next_day1 (t : Int) (hms : msOf t = 0) (hd : (civilOf t).day = 1) :
    msOf (jsSetMonth t (jsGetMonth t + 1)) = 0 ∧
    (civilOf (jsSetMonth t (jsGetMonth t + 1))).day = 1 ∧
    monthIdx (civilOf (jsSetMonth t (jsGetMonth t + 1))) = monthIdx (civilOf t) + 1 ∧
    t < jsSetMonth t (jsGetMonth t + 1) := by
  obtain ⟨hm1, hm2, hd1, hd2⟩ := civilOf_valid t
  have hl := leapInt_bound (civilOf t).year
  have hlen := monthLen_bound (leapInt (civilOf t).year) (civilOf t).month hl.1 hl.2
  have hnext := jsSetMonth_next t
  have hrt := civilOf_roundtrip t
  have hsplit := day_ms_split t
  -- the new instant is the midnight of the first of the successor month
  have hday : dayOf (jsSetMonth t (jsGetMonth t + 1)) =
      dayOf t + monthLen (leapInt (civilOf t).year) (civilOf t).month := by
    rw [hnext]
    unfold dayOf msPerDay at *
    omega
  have hmsz : msOf (jsSetMonth t (jsGetMonth t + 1)) = 0 := by
    rw [hnext]
    unfold msOf msPerDay at *
    omega
  by_cases h12 : (civilOf t).month = 12
  · have hcd : dayOf (jsSetMonth t (jsGetMonth t + 1)) =
        dayOfCivil ((civilOf t).year + 1) 1 1 := by
      rw [hday, dayOfCivil_year_wrap, ← hrt, h12, dayOfCivil_linear, hd]
      have h31 : monthLen (leapInt (civilOf t).year) 12 = 31 := by
        simp only [monthLen]; norm_num
      omega
    have hciv : civilOf (jsSetMonth t (jsGetMonth t + 1)) = ⟨(civilOf t).year + 1, 1, 1⟩ := by
      unfold civilOf
      rw [hcd]
      exact dayOfCivil_roundtrip _ 1 1 (by norm_num) (by norm_num) (by norm_num)
        (by have := monthLen_bound (leapInt ((civilOf t).year + 1)) 1
              (leapInt_bound _).1 (leapInt_bound _).2
            omega)
    refine ⟨hmsz, ?_, ?_, ?_⟩
    · rw [hciv]
    · rw [hciv]; unfold monthIdx; rw [h12]; push_cast; ring
    · unfold msPerDay at *; omega
  · have hcd : dayOf (jsSetMonth t (jsGetMonth t + 1)) =
        dayOfCivil (civilOf t).year ((civilOf t).month + 1) 1 := by
      rw [hday, dayOfCivil_next_month _ _ hm1 (by omega), ← hrt, dayOfCivil_linear, hd]
      omega
    have hciv : civilOf (jsSetMonth t (jsGetMonth t + 1)) =
        ⟨(civilOf t).year, (civilOf t).month + 1, 1⟩ := by
      unfold civilOf
      rw [hcd]
      exact dayOfCivil_roundtrip _ _ 1 (by omega) (by omega) (by norm_num)
        (by have := monthLen_bound (leapInt (civilOf t).year) ((civilOf t).month + 1)
              hl.1 hl.2
            omega)
    refine ⟨hmsz, ?_, ?_, ?_⟩
    · rw [hciv]
    · rw [hciv]; unfold monthIdx; ring
    · unfold msPerDay at *; omega

/-- `MakeDay` at an in-range civil position (0-based month `m - 1`). -/
theorem makeDay_civil (y m d : Int) (hm1 : 1 ≤ m) (hm2 : m ≤ 12) (hd1 : 1 ≤ d)
    (hd2 : d ≤ monthLen (leapInt y) m) :
    makeDay y (m - 1) d = dayOfCivil y m d ∧
    civilOfDay (makeDay y (m - 1) d) = ⟨y, m, d⟩ := by
  have hdiv : (m - 1) / 12 = 0 := by omega
  have hmod : (m - 1) % 12 = m - 1 := by omega
  have heq : makeDay y (m - 1) d = dayOfCivil y m d := by
    unfold makeDay
    rw [hdiv, hmod]
    rw [show y + 0 = y from by ring, show m - 1 + 1 = m from by ring]
    rw [dayOfCivil_linear y m d]
  exact ⟨heq, by rw [heq]; exact dayOfCivil_roundtrip y m d hm1 hm2 hd1 hd2⟩

/-- `new Date(y, 0, 1)` is midnight of Jan 1 of year `y`. -/
theorem jsNewDateYMD_jan1 (y : Int) :
    msOf (jsNewDateYMD y 0 1) = 0 ∧ civilOf (jsNewDateYMD y 0 1) = ⟨y, 1, 1⟩ ∧
    dayOf (jsNewDateYMD y 0 1) = dayOfCivil y 1 1 := by
  have h := makeDay_civil y 1 1 (by norm_num) (by norm_num) (by norm_num)
    (by have := monthLen_bound (leapInt y) 1 (leapInt_bound y).1 (leapInt_bound y).2; omega)
  rw [show (1 : Int) - 1 = 0 from by norm_num] at h
  unfold jsNewDateYMD civilOf
  rw [(dayOf_midnight (makeDay y 0 1)).1, (dayOf_midnight (makeDay y 0 1)).2, h.1]
  exact ⟨rfl, dayOfCivil_roundtrip y 1 1 (by norm_num) (by norm_num) (by norm_num)
    (by have := monthLen_bound (leapInt y) 1 (leapInt_bound y).1 (leapInt_bound y).2; omega),
    rfl⟩

/-- On a Jan-1 midnight instant, `iter.setFullYear(iter.getFullYear() + 1)`
moves to the next Jan-1 midnight, `365 + leap` days later. -/
theorem jsSetFullYear_next (t : Int) (hms : msOf t = 0) (hd : (civilOf t).day = 1)
    (hm : (civilOf t).month = 1) :
    msOf (jsSetFullYear t (jsGetFullYear t + 1)) = 0 ∧
    civilOf (jsSetFullYear t (jsGetFullYear t + 1)) = ⟨(civilOf t).year + 1, 1, 1⟩ ∧
    jsSetFullYear t (jsGetFullYear t + 1) =
      t + (365 + leapInt (civilOf t).year) * msPerDay := by
  have hrt := civilOf_roundtrip t
  rw [hm, hd] at hrt
  have hmk := makeDay_civil ((civilOf t).year + 1) 1 1 (by norm_num) (by norm_num)
    (by norm_num)
    (by have := monthLen_bound (leapInt ((civilOf t).year + 1)) 1
          (leapInt_bound _).1 (leapInt_bound _).2
        omega)
  rw [show (1 : Int) - 1 = 0 from by norm_num] at hmk
  have hstep : dayOfCivil ((civilOf t).year + 1) 1 1 =
      dayOfCivil (civilOf t).year 1 1 + (365 + leapInt (civilOf t).year) := by
    have hg := gdays_step (civilOf t).year
    simp only [dayOfCivil, monthOff]
    omega
  have hsplit := day_ms_split t
  have harg : jsSetFullYear t (jsGetFullYear t + 1) =
      msPerDay * dayOfCivil ((civilOf t).year + 1) 1 1 := by
    unfold jsSetFullYear jsGetFullYear jsGetMonth jsGetDate
    rw [hm, hd, hms]
    rw [show (1 : Int) - 1 = 0 from by norm_num]
    rw [hmk.1]
    ring
  refine ⟨?_, ?_, ?_⟩
  · rw [harg]; exact (dayOf_midnight _).2
  · unfold civilOf
    rw [harg, (dayOf_midnight _).1]
    exact hmk.2 ▸ (by rw [← hmk.1, hmk.2])
  · rw [harg, hstep, hrt]
    unfold msPerDay at *
    omega

theorem digitsRev_val (f : Nat) : ∀ n : Nat, n ≤ f → ofDigitsRev (digitsRev f n) = n := by
  induction f with
  | zero =>
      intro n hn
      have : n = 0 := by omega
      subst this
      rfl
  | succ f ih =>
      intro n hn
      match n with
      | 0 => rw [digitsRev, if_pos rfl]; rfl
      | n + 1 =>
          rw [digitsRev, if_neg (by omega), ofDigitsRev]
          have hlt : (n + 1) / 10 ≤ f := by omega
          rw [ih _ hlt]
          omega

theorem digitsRev_lt (f : Nat) : ∀ n d : Nat, d ∈ digitsRev f n → d < 10 := by
  induction f with
  | zero => intro n d hd; simp [digitsRev] at hd
  | succ f ih =>
      intro n d hd
      match n with
      | 0 => rw [digitsRev, if_pos rfl] at hd; simp at hd
      | n + 1 =>
          rw [digitsRev, if_neg (by omega)] at hd
          rcases List.mem_cons.mp hd with h | h
          · omega
          · exact ih _ _ h

theorem digitChar_inj_lt :
    ∀ a, a < 10 → ∀ b, b < 10 → Nat.digitChar a = Nat.digitChar b → a = b := by
  decide

theorem digitChar_ne_dash : ∀ a, a < 10 → Nat.digitChar a ≠ '-' := by
  decide

theorem map_digitChar_inj : ∀ as bs : List Nat, (∀ d ∈ as, d < 10) → (∀ d ∈ bs, d < 10) →
    as.map Nat.digitChar = bs.map Nat.digitChar → as = bs := by
  intro as
  induction as with
  | nil =>
      intro bs _ _ h
      cases bs with
      | nil => rfl
      | cons b bs => simp at h
  | cons a as ih =>
      intro bs ha hb h
      cases bs with
      | nil => simp at h
      | cons b bs =>
          simp only [List.map_cons, List.cons.injEq] at h
          have hab : a = b := digitChar_inj_lt a (ha a (by simp)) b (hb b (by simp)) h.1
          have : as = bs := ih bs (fun d hd => ha d (by simp [hd]))
            (fun d hd => hb d (by simp [hd])) h.2
          rw [hab, this]

theorem natDecimal_data_head (n : Nat) :
    ∃ c cs, (natDecimal n).data = c :: cs ∧ c ≠ '-' := by
  unfold natDecimal
  by_cases h : n = 0
  · rw [if_pos h]
    exact ⟨'0', [], rfl, by decide⟩
  · rw [if_neg h]
    have hne : digitsRev n n ≠ [] := by
      match n, h with
      | n + 1, _ => rw [digitsRev, if_neg (by omega)]; simp
    have hrne : (digitsRev n n).reverse ≠ [] := by
      simpa using hne
    match hrv : (digitsRev n n).reverse with
    | [] => exact absurd hrv hrne
    | c :: cs =>
        refine ⟨Nat.digitChar c, cs.map Nat.digitChar, by simp [hrv], ?_⟩
        apply digitChar_ne_dash
        apply digitsRev_lt n n
        have : c ∈ (digitsRev n n).reverse := by rw [hrv]; simp
        simpa using this

theorem natDecimal_inj (m n : Nat) (h : natDecimal m = natDecimal n) : m = n := by
  have hdata : (natDecimal m).data = (natDecimal n).data := by rw [h]
  unfold natDecimal at hdata
  by_cases hm : m = 0 <;> by_cases hn : n = 0
  · omega
  · rw [if_pos hm, if_neg hn] at hdata
    have h0 : ([('0' : Char)] : List Char) = (digitsRev n n).reverse.map Nat.digitChar :=
      hdata
    have : ([0] : List Nat) = (digitsRev n n).reverse := by
      apply map_digitChar_inj
      · intro d hd; simp at hd; omega
      · intro d hd
        exact digitsRev_lt n n d (by simpa using hd)
      · simpa using h0
    have hval : ofDigitsRev (digitsRev n n) = n := digitsRev_val n n le_rfl
    have : digitsRev n n = [0] := by
      have := congrArg List.reverse this
      simpa using this.symm
    rw [this] at hval
    simp [ofDigitsRev] at hval
    omega
  · rw [if_neg hm, if_pos hn] at hdata
    have h0 : (digitsRev m m).reverse.map Nat.digitChar = [('0' : Char)] := hdata
    have : (digitsRev m m).reverse = ([0] : List Nat) := by
      apply map_digitChar_inj
      · intro d hd
        exact digitsRev_lt m m d (by simpa using hd)
      · intro d hd; simp at hd; omega
      · simpa using h0
    have hval : ofDigitsRev (digitsRev m m) = m := digitsRev_val m m le_rfl
    have : digitsRev m m = [0] := by
      have := congrArg List.reverse this
      simpa using this
    rw [this] at hval
    simp [ofDigitsRev] at hval
    omega
  · rw [if_neg hm, if_neg hn] at hdata
    have : (digitsRev m m).reverse = (digitsRev n n).reverse := by
      apply map_digitChar_inj
      · intro d hd
        exact digitsRev_lt m m d (by simpa using hd)
      · intro d hd
        exact digitsRev_lt n n d (by simpa using hd)
      · exact hdata
    have hmn : digitsRev m m = digitsRev n n := by
      have := congrArg List.reverse this
      simpa using this
    have h1 := digitsRev_val m m le_rfl
    have h2 := digitsRev_val n n le_rfl
    rw [hmn, h2] at h1
    omega

theorem intDecimal_inj (i j : Int) (h : intDecimal i = intDecimal j) : i = j := by
  unfold intDecimal at h
  by_cases hi : i < 0 <;> by_cases hj : j < 0
  · rw [if_pos hi, if_pos hj] at h
    have hdata := congrArg String.data h
    simp only [String.data_append] at hdata
    have : (natDecimal (-i).toNat).data = (natDecimal (-j).toNat).data := by
      have hd : ('-' : Char) :: (natDecimal (-i).toNat).data =
          '-' :: (natDecimal (-j).toNat).data := hdata
      exact List.cons.inj hd |>.2
    have := natDecimal_inj _ _ (by
      apply congrArg String.mk at this
      simpa using this)
    omega
  · rw [if_pos hi, if_neg hj] at h
    obtain ⟨c, cs, hc, hcne⟩ := natDecimal_data_head j.toNat
    have hdata := congrArg String.data h
    simp only [String.data_append, hc] at hdata
    have : ('-' : Char) = c := (List.cons.inj hdata).1
    exact absurd this.symm hcne
  · rw [if_neg hi, if_pos hj] at h
    obtain ⟨c, cs, hc, hcne⟩ := natDecimal_data_head i.toNat
    have hdata := congrArg String.data h
    simp only [String.data_append, hc] at hdata
    have : c = ('-' : Char) := (List.cons.inj hdata).1
    exact absurd this hcne
  · rw [if_neg hi, if_neg hj] at h
    have := natDecimal_inj _ _ h
    omega

/-! ### Bucket accumulation lemmas -/

theorem bucketLookup_nil (k : String) : bucketLookup [] k = 0 := rfl

theorem bucketLookup_bump (m : List (String × Int)) (k : String) (v : Int) (q : String) :
    bucketLookup (bumpBucket m k v) q =
      bucketLookup m q + (if k = q then v else 0) := by
  induction m with
  | nil =>
      by_cases h : k = q <;> simp [bumpBucket, bucketLookup, h]
  | cons p rest ih =>
      obtain ⟨k0, v0⟩ := p
      by_cases h0 : k0 = k
      · subst h0
        by_cases hq : k0 = q <;> simp [bumpBucket, bucketLookup, hq]
      · by_cases hq : k0 = q
        · have hk : ¬ k = q := fun hc => h0 (by rw [hc, hq])
          have hqk : ¬ q = k := fun hc => hk hc.symm
          simp [bumpBucket, bucketLookup, h0, hq, hk, hqk]
        · simp [bumpBucket, bucketLookup, h0, hq, ih]

theorem buildBuckets_lookup (step : Step) (es : List CaffeineEntry) (k : String) :
    bucketLookup (buildBuckets step es) k =
      ((es.filter fun e => decide (entryBucketKey step e.timestamp = k)).map
        fun e => e.caffeineMg).sum := by
  suffices h : ∀ acc : List (String × Int),
      bucketLookup
        (es.foldl (fun m e => bumpBucket m (entryBucketKey step e.timestamp) e.caffeineMg) acc)
        k =
      bucketLookup acc k +
        ((es.filter fun e => decide (entryBucketKey step e.timestamp = k)).map
          fun e => e.caffeineMg).sum by
    have := h []
    rw [bucketLookup_nil] at this
    unfold buildBuckets
    rw [this]
    ring
  induction es with
  | nil => intro acc; simp
  | cons e es ih =>
      intro acc
      simp only [List.foldl_cons]
      rw [ih (bumpBucket acc (entryBucketKey step e.timestamp) e.caffeineMg)]
      rw [bucketLookup_bump]
      by_cases hk : entryBucketKey step e.timestamp = k
      · simp [hk]
        ring
      · simp [hk]

/-- C1.  For every period, every `now` and every entry set: whenever the chart
has an `i`-th bucket (its axis position being `t`), `values[i]` is exactly the
sum of `caffeineMg` over the entries that lie in `[startDate, now]` and whose
timestamp, truncated to the step granularity, produces bucket `i`'s key.  In
particular a bucket with no matching entries carries the value `0` (the sum of
an empty list), and never `null`/absent. -/
theorem chart_sum_correct (period : ChartPeriod) (now : Int)
    (entries : List CaffeineEntry) (plan : ChartCfg)
    (hplan : chartPlan period now entries = some plan)
    (i : Nat) (t : Int)
    (ht : (chartAxis plan.step plan.startDate (jsSetHours0 now))[i]? = some t) :
    (caffeineChart period now entries).values[i]? =
      some (((entries.filter fun e => inWindow plan.startDate now e &&
          decide (entryBucketKey plan.step e.timestamp = axisBucketKey plan.step t)).map
        fun e => e.caffeineMg).sum) := by
  unfold caffeineChart
  rw [hplan]
  simp only [List.getElem?_map, ht, Option.map_some']
  rw [buildBuckets_lookup]
  rw [List.filter_filter]
  have hfc : (entries.filter fun a =>
      decide (entryBucketKey plan.step a.timestamp = axisBucketKey plan.step t) &&
        inWindow plan.startDate now a) =
      entries.filter fun e => inWindow plan.startDate now e &&
        decide (entryBucketKey plan.step e.timestamp = axisBucketKey plan.step t) := by
    apply List.filter_congr
    intro e _
    rw [Bool.and_comm]
  rw [hfc]

/-! ### Axis characterisation -/

theorem dayAxisGo_eq (f : Nat) : ∀ s today : Int, msOf s = 0 → msOf today = 0 →
    today < s + (f : Int) * msPerDay →
    dayAxisGo f s today =
      (List.range ((today - s) / msPerDay + 1).toNat).map
        (fun i : Nat => s + (i : Int) * msPerDay) := by
  induction f with
  | zero =>
      intro s today hs ht hf
      push_cast at hf
      have h0 : ((today - s) / msPerDay + 1).toNat = 0 := by
        unfold msOf at hs ht
        unfold msPerDay at *
        omega
      rw [h0]
      rfl
  | succ f ih =>
      intro s today hs ht hf
      rw [dayAxisGo]
      by_cases h : s ≤ today
      · rw [if_pos h]
        have hshift : jsSetDate s (jsGetDate s + 1) = s + 1 * msPerDay := jsSetDate_shift s 1
        have hs2 : msOf (s + 1 * msPerDay) = 0 := by
          unfold msOf at hs ⊢
          unfold msPerDay at *
          omega
        have hf2 : today < s + 1 * msPerDay + (f : Int) * msPerDay := by
          push_cast at hf
          unfold msPerDay at *
          omega
        rw [hshift, ih (s + 1 * msPerDay) today hs2 ht hf2]
        have hn : ((today - s) / msPerDay + 1).toNat =
            ((today - (s + 1 * msPerDay)) / msPerDay + 1).toNat + 1 := by
          unfold msOf at hs ht
          unfold msPerDay at *
          omega
        rw [hn, List.range_succ_eq_map, List.map_cons, List.map_map]
        congr 1
        · push_cast; ring
        · congr 1
          funext i
          simp only [Function.comp]
          push_cast
          ring
      · rw [if_neg h]
        have h0 : ((today - s) / msPerDay + 1).toNat = 0 := by
          unfold msOf at hs ht
          unfold msPerDay at *
          omega
        rw [h0]
        rfl

theorem monthStartDay_idx (y m : Int) (h1 : 1 ≤ m) (h2 : m ≤ 12) :
    monthStartDay (12 * y + (m - 1)) = dayOfCivil y m 1 := by
  have hdiv : (12 * y + (m - 1)) / 12 = y := by omega
  have hmod : (12 * y + (m - 1)) % 12 = m - 1 := by omega
  unfold monthStartDay
  rw [hdiv, hmod]
  rw [show m - 1 + 1 = m from by ring]

theorem monthStartDay_step (k : Int) :
    monthStartDay (k + 1) = monthStartDay k + monthLen (leapInt (k / 12)) (k % 12 + 1) := by
  by_cases h : k % 12 ≤ 10
  · have hdiv : (k + 1) / 12 = k / 12 := by omega
    have hmod : (k + 1) % 12 = k % 12 + 1 := by omega
    unfold monthStartDay
    rw [hdiv, hmod]
    rw [show k % 12 + 1 + 1 = (k % 12 + 1) + 1 from by ring]
    exact dayOfCivil_next_month (k / 12) (k % 12 + 1) (by omega) (by omega)
  · have h11 : k % 12 = 11 := by omega
    have hdiv : (k + 1) / 12 = k / 12 + 1 := by omega
    have hmod : (k + 1) % 12 = 0 := by omega
    unfold monthStartDay
    rw [hdiv, hmod, h11]
    norm_num
    rw [dayOfCivil_year_wrap (k / 12)]
    have : monthLen (leapInt (k / 12)) 12 = 31 := by
      simp only [monthLen]; norm_num
    rw [this]

theorem monthStartDay_mono (k : Int) (n : Nat) :
    monthStartDay k + 28 * n ≤ monthStartDay (k + n) := by
  induction n with
  | zero => simp
  | succ j ihj =>
      have hstep := monthStartDay_step (k + j)
      have hl := leapInt_bound ((k + j) / 12)
      have hlen := monthLen_bound (leapInt ((k + j) / 12)) ((k + j) % 12 + 1) hl.1 hl.2
      have hc1 : (((j : Nat) + 1 : Nat) : Int) = (j : Int) + 1 := by push_cast; ring
      rw [hc1]
      have hc2 : k + ((j : Int) + 1) = (k + j) + 1 := by ring
      rw [hc2]
      omega

theorem monthStartDay_strict_mono {a b : Int} (h : a < b) :
    monthStartDay a < monthStartDay b := by
  have hn : b = a + ((b - a).toNat : Int) := by omega
  have := monthStartDay_mono a (b - a).toNat
  rw [← hn] at this
  omega

/-- Any instant lies (by day number) within the month-start bracket of its
civil month. -/
theorem monthStartDay_bracket (t : Int) :
    monthStartDay (monthIdx (civilOf t)) ≤ dayOf t ∧
    dayOf t < monthStartDay (monthIdx (civilOf t) + 1) := by
  obtain ⟨hm1, hm2, hd1, hd2⟩ := civilOf_valid t
  have hrt := civilOf_roundtrip t
  have hidx : monthIdx (civilOf t) =
      12 * (civilOf t).year + ((civilOf t).month - 1) := rfl
  have hsd : monthStartDay (monthIdx (civilOf t)) =
      dayOfCivil (civilOf t).year (civilOf t).month 1 := by
    rw [hidx]
    exact monthStartDay_idx _ _ hm1 hm2
  have hstep := monthStartDay_step (monthIdx (civilOf t))
  have hdivk : monthIdx (civilOf t) / 12 = (civilOf t).year := by
    rw [hidx]; omega
  have hmodk : monthIdx (civilOf t) % 12 = (civilOf t).month - 1 := by
    rw [hidx]; omega
  rw [hdivk, hmodk] at hstep
  rw [show (civilOf t).month - 1 + 1 = (civilOf t).month from by ring] at hstep
  have hlin := dayOfCivil_linear (civilOf t).year (civilOf t).month (civilOf t).day
  constructor
  · rw [hsd, ← hrt]
    omega
  · rw [hstep, hsd, ← hrt]
    omega

/-- Comparison of a day-1 midnight instant with any midnight instant reduces
to comparison of linear month indices. -/
theorem le_iff_monthIdx (a b : Int) (hmsa : msOf a = 0) (hmsb : msOf b = 0)
    (hda : (civilOf a).day = 1) :
    a ≤ b ↔ monthIdx (civilOf a) ≤ monthIdx (civilOf b) := by
  have hsa := day_ms_split a
  have hsb := day_ms_split b
  have hba := monthStartDay_bracket a
  have hbb := monthStartDay_bracket b
  obtain ⟨hm1, hm2, hd1, hd2⟩ := civilOf_valid a
  have hrta := civilOf_roundtrip a
  have haeq : dayOf a = monthStartDay (monthIdx (civilOf a)) := by
    have : monthStartDay (monthIdx (civilOf a)) =
        dayOfCivil (civilOf a).year (civilOf a).month 1 :=
      monthStartDay_idx _ _ hm1 hm2
    rw [this, ← hrta, hda]
  constructor
  · intro hab
    by_contra hcon
    push_neg at hcon
    have h1 : monthIdx (civilOf b) + 1 ≤ monthIdx (civilOf a) := by omega
    have h2 : monthStartDay (monthIdx (civilOf b) + 1) ≤
        monthStartDay (monthIdx (civilOf a)) := by
      rcases eq_or_lt_of_le h1 with he | hlt
      · rw [he]
      · exact le_of_lt (monthStartDay_strict_mono hlt)
    have : dayOf a ≤ dayOf b := by
      unfold msPerDay at *
      omega
    omega
  · intro hidx
    have h2 : monthStartDay (monthIdx (civilOf a)) ≤
        monthStartDay (monthIdx (civilOf b)) := by
      rcases eq_or_lt_of_le hidx with he | hlt
      · rw [he]
      · exact le_of_lt (monthStartDay_strict_mono hlt)
    have : dayOf a ≤ dayOf b := by omega
    unfold msPerDay at *
    omega

theorem monthStartDay_le_mono {a b : Int} (h : a ≤ b) :
    monthStartDay a ≤ monthStartDay b := by
  rcases eq_or_lt_of_le h with he | hlt
  · rw [he]
  · exact le_of_lt (monthStartDay_strict_mono hlt)

theorem monthStartDay_lt_rev {a b : Int} (h : monthStartDay a < monthStartDay b) :
    a < b := by
  by_contra hc
  push_neg at hc
  have := monthStartDay_le_mono hc
  omega

theorem monthAxisGo_len (f : Nat) : ∀ iter today : Int, msOf iter = 0 → msOf today = 0 →
    (civilOf iter).day = 1 →
    monthIdx (civilOf today) < monthIdx (civilOf iter) + (f : Int) →
    (monthAxisGo f iter today).length =
      (monthIdx (civilOf today) - monthIdx (civilOf iter) + 1).toNat := by
  induction f with
  | zero =>
      intro iter today hms ht hd hf
      push_cast at hf
      simp only [monthAxisGo, List.length_nil]
      omega
  | succ f ih =>
      intro iter today hms ht hd hf
      rw [monthAxisGo]
      by_cases h : iter ≤ today
      · rw [if_pos h]
        have hidxle := (le_iff_monthIdx iter today hms ht hd).mp h
        obtain ⟨hms2, hd2, hidx2, _⟩ := jsSetMonth_next_day1 iter hms hd
        rw [List.length_cons]
        rw [ih _ today hms2 ht hd2 (by push_cast at hf; rw [hidx2]; omega)]
        rw [hidx2]
        omega
      · rw [if_neg h]
        have : ¬ (monthIdx (civilOf iter) ≤ monthIdx (civilOf today)) := by
          intro hc
          exact h ((le_iff_monthIdx iter today hms ht hd).mpr hc)
        simp only [List.length_nil]
        omega

/-- Along the month axis every element is a day-1 midnight and the linear
month index is strictly increasing. -/
theorem monthAxisGo_elems (f : Nat) : ∀ iter today : Int, msOf iter = 0 →
    (civilOf iter).day = 1 →
    (∀ t ∈ monthAxisGo f iter today,
      msOf t = 0 ∧ (civilOf t).day = 1 ∧ monthIdx (civilOf iter) ≤ monthIdx (civilOf t)) ∧
    (monthAxisGo f iter today).Pairwise
      (fun a b => monthIdx (civilOf a) < monthIdx (civilOf b)) := by
  induction f with
  | zero =>
      intro iter today hms hd
      simp [monthAxisGo]
  | succ f ih =>
      intro iter today hms hd
      rw [monthAxisGo]
      by_cases h : iter ≤ today
      · rw [if_pos h]
        obtain ⟨hms2, hd2, hidx2, _⟩ := jsSetMonth_next_day1 iter hms hd
        obtain ⟨helems, hpw⟩ := ih (jsSetMonth iter (jsGetMonth iter + 1)) today hms2 hd2
        constructor
        · intro t htmem
          rcases List.mem_cons.mp htmem with he | hm
          · subst he
            exact ⟨hms, hd, le_rfl⟩
          · obtain ⟨h1, h2, h3⟩ := helems t hm
            exact ⟨h1, h2, by rw [hidx2] at h3; omega⟩
        · rw [List.pairwise_cons]
          refine ⟨?_, hpw⟩
          intro t htmem
          obtain ⟨_, _, h3⟩ := helems t htmem
          rw [hidx2] at h3
          omega
      · rw [if_neg h]
        simp

theorem yearStartDay_step (y : Int) :
    yearStartDay (y + 1) = yearStartDay y + (365 + leapInt y) := by
  have hg := gdays_step y
  unfold yearStartDay
  simp only [dayOfCivil, monthOff]
  omega

theorem yearStartDay_mono (y : Int) (n : Nat) :
    yearStartDay y + 365 * n ≤ yearStartDay (y + n) := by
  induction n with
  | zero => simp
  | succ j ihj =>
      have hstep := yearStartDay_step (y + j)
      have hl := leapInt_bound (y + j)
      have hc1 : (((j : Nat) + 1 : Nat) : Int) = (j : Int) + 1 := by push_cast; ring
      rw [hc1, show y + ((j : Int) + 1) = (y + j) + 1 from by ring]
      omega

theorem yearStartDay_strict_mono {a b : Int} (h : a < b) :
    yearStartDay a < yearStartDay b := by
  have hn : b = a + ((b - a).toNat : Int) := by omega
  have := yearStartDay_mono a (b - a).toNat
  rw [← hn] at this
  omega

theorem yearStartDay_le_mono {a b : Int} (h : a ≤ b) :
    yearStartDay a ≤ yearStartDay b := by
  rcases eq_or_lt_of_le h with he | hlt
  · rw [he]
  · exact le_of_lt (yearStartDay_strict_mono hlt)

theorem yearStartDay_bracket (t : Int) :
    yearStartDay (civilOf t).year ≤ dayOf t ∧
    dayOf t < yearStartDay ((civilOf t).year + 1) := by
  obtain ⟨hm1, hm2, hd1, hd2⟩ := civilOf_valid t
  have hrt := civilOf_roundtrip t
  have hl := leapInt_bound (civilOf t).year
  have hoff := monthOff_monthLen_bound (leapInt (civilOf t).year) (civilOf t).month hm1 hm2 hl.1
  have hstep := yearStartDay_step (civilOf t).year
  unfold yearStartDay at *
  simp only [dayOfCivil, monthOff] at *
  omega

theorem le_iff_year (a b : Int) (hmsa : msOf a = 0) (hmsb : msOf b = 0)
    (hda : (civilOf a).day = 1) (hma : (civilOf a).month = 1) :
    a ≤ b ↔ (civilOf a).year ≤ (civilOf b).year := by
  have hsa := day_ms_split a
  have hsb := day_ms_split b
  have hbb := yearStartDay_bracket b
  have hrta := civilOf_roundtrip a
  have haeq : dayOf a = yearStartDay (civilOf a).year := by
    unfold yearStartDay
    rw [← hrta, hma, hda]
  constructor
  · intro hab
    by_contra hcon
    push_neg at hcon
    have h2 : yearStartDay ((civilOf b).year + 1) ≤ yearStartDay (civilOf a).year :=
      yearStartDay_le_mono (by omega)
    have : dayOf a ≤ dayOf b := by
      unfold msPerDay at *
      omega
    omega
  · intro hy
    have h2 : yearStartDay (civilOf a).year ≤ yearStartDay (civilOf b).year :=
      yearStartDay_le_mono hy
    have : dayOf a ≤ dayOf b := by omega
    unfold msPerDay at *
    omega

theorem yearAxisGo_len (f : Nat) : ∀ iter today : Int, msOf iter = 0 → msOf today = 0 →
    (civilOf iter).day = 1 → (civilOf iter).month = 1 →
    (civilOf today).year < (civilOf iter).year + (f : Int) →
    (yearAxisGo f iter today).length =
      ((civilOf today).year - (civilOf iter).year + 1).toNat := by
  induction f with
  | zero =>
      intro iter today hms ht hd hm hf
      push_cast at hf
      simp only [yearAxisGo, List.length_nil]
      omega
  | succ f ih =>
      intro iter today hms ht hd hm hf
      rw [yearAxisGo]
      by_cases h : iter ≤ today
      · rw [if_pos h]
        have hyle := (le_iff_year iter today hms ht hd hm).mp h
        obtain ⟨hms2, hciv2, _⟩ := jsSetFullYear_next iter hms hd hm
        rw [List.length_cons]
        have hd2 : (civilOf (jsSetFullYear iter (jsGetFullYear iter + 1))).day = 1 := by
          rw [hciv2]
        have hm2 : (civilOf (jsSetFullYear iter (jsGetFullYear iter + 1))).month = 1 := by
          rw [hciv2]
        have hy2 : (civilOf (jsSetFullYear iter (jsGetFullYear iter + 1))).year =
            (civilOf iter).year + 1 := by
          rw [hciv2]
        rw [ih _ today hms2 ht hd2 hm2 (by push_cast at hf; rw [hy2]; omega)]
        rw [hy2]
        omega
      · rw [if_neg h]
        have : ¬ ((civilOf iter).year ≤ (civilOf today).year) := by
          intro hc
          exact h ((le_iff_year iter today hms ht hd hm).mpr hc)
        simp only [List.length_nil]
        omega

/-- Along the year axis every element is a Jan-1 midnight and the year is
strictly increasing. -/
theorem yearAxisGo_elems (f : Nat) : ∀ iter today : Int, msOf iter = 0 →
    (civilOf iter).day = 1 → (civilOf iter).month = 1 →
    (∀ t ∈ yearAxisGo f iter today,
      msOf t = 0 ∧ (civilOf t).day = 1 ∧ (civilOf t).month = 1 ∧
        (civilOf iter).year ≤ (civilOf t).year) ∧
    (yearAxisGo f iter today).Pairwise
      (fun a b => (civilOf a).year < (civilOf b).year) := by
  induction f with
  | zero =>
      intro iter today hms hd hm
      simp [yearAxisGo]
  | succ f ih =>
      intro iter today hms hd hm
      rw [yearAxisGo]
      by_cases h : iter ≤ today
      · rw [if_pos h]
        obtain ⟨hms2, hciv2, _⟩ := jsSetFullYear_next iter hms hd hm
        obtain ⟨helems, hpw⟩ := ih (jsSetFullYear iter (jsGetFullYear iter + 1)) today hms2
          (by rw [hciv2]) (by rw [hciv2])
        constructor
        · intro t htmem
          rcases List.mem_cons.mp htmem with he | hmem
          · subst he
            exact ⟨hms, hd, hm, le_rfl⟩
          · obtain ⟨h1, h2, h3, h4⟩ := helems t hmem
            refine ⟨h1, h2, h3, ?_⟩
            rw [hciv2] at h4
            simp at h4
            omega
        · rw [List.pairwise_cons]
          refine ⟨?_, hpw⟩
          intro t htmem
          obtain ⟨_, _, _, h4⟩ := helems t htmem
          rw [hciv2] at h4
          simp at h4
          omega
      · rw [if_neg h]
        simp

theorem monthStart_of_day1 (t : Int) (hd : (civilOf t).day = 1) :
    dayOf t = monthStartDay (monthIdx (civilOf t)) := by
  obtain ⟨hm1, hm2, _, _⟩ := civilOf_valid t
  have hrt := civilOf_roundtrip t
  have : monthStartDay (monthIdx (civilOf t)) =
      dayOfCivil (civilOf t).year (civilOf t).month 1 :=
    monthStartDay_idx _ _ hm1 hm2
  rw [this, ← hrt, hd]

theorem chartAxis_day_eq (s today : Int) (hs : msOf s = 0) (ht : msOf today = 0) :
    chartAxis Step.day s today =
      (List.range ((today - s) / msPerDay + 1).toNat).map
        (fun i : Nat => s + (i : Int) * msPerDay) := by
  show dayAxisGo (axisFuel s today) s today = _
  apply dayAxisGo_eq _ _ _ hs ht
  unfold msOf at hs ht
  unfold axisFuel msPerDay at *
  omega

theorem chartAxis_month_len (s today : Int) (hs : msOf s = 0) (ht : msOf today = 0)
    (hd : (civilOf s).day = 1) :
    (chartAxis Step.month s today).length =
      (monthIdx (civilOf today) - monthIdx (civilOf s) + 1).toNat := by
  show (monthAxisGo (axisFuel s today) s today).length = _
  apply monthAxisGo_len _ _ _ hs ht hd
  have hbt := monthStartDay_bracket today
  have haeq := monthStart_of_day1 s hd
  have hdiff : (today - s) / msPerDay = dayOf today - dayOf s := by
    unfold msOf at hs ht
    unfold dayOf msPerDay at *
    omega
  by_cases hle : monthIdx (civilOf s) ≤ monthIdx (civilOf today)
  · have hn : monthIdx (civilOf today) =
        monthIdx (civilOf s) + ((monthIdx (civilOf today) - monthIdx (civilOf s)).toNat : Int) := by
      omega
    have hmono := monthStartDay_mono (monthIdx (civilOf s))
      (monthIdx (civilOf today) - monthIdx (civilOf s)).toNat
    rw [← hn] at hmono
    unfold axisFuel
    rw [hdiff]
    omega
  · unfold axisFuel
    rw [hdiff]
    omega

theorem chartAxis_year_len (s today : Int) (hs : msOf s = 0) (ht : msOf today = 0)
    (hd : (civilOf s).day = 1) (hm : (civilOf s).month = 1) :
    (chartAxis Step.year s today).length =
      ((civilOf today).year - (civilOf s).year + 1).toNat := by
  show (yearAxisGo (axisFuel s today) s today).length = _
  apply yearAxisGo_len _ _ _ hs ht hd hm
  have hbt := yearStartDay_bracket today
  have hrt := civilOf_roundtrip s
  have haeq : dayOf s = yearStartDay (civilOf s).year := by
    unfold yearStartDay
    rw [← hrt, hm, hd]
  have hdiff : (today - s) / msPerDay = dayOf today - dayOf s := by
    unfold msOf at hs ht
    unfold dayOf msPerDay at *
    omega
  by_cases hle : (civilOf s).year ≤ (civilOf today).year
  · have hn : (civilOf today).year =
        (civilOf s).year + (((civilOf today).year - (civilOf s).year).toNat : Int) := by
      omega
    have hmono := yearStartDay_mono (civilOf s).year
      ((civilOf today).year - (civilOf s).year).toNat
    rw [← hn] at hmono
    unfold axisFuel
    rw [hdiff]
    omega
  · unfold axisFuel
    rw [hdiff]
    omega

theorem msOf_setter (t k : Int) : msOf (msPerDay * k + msOf t) = msOf t := by
  unfold msOf msPerDay at *
  omega

theorem msOf_jsSetDate (t n : Int) : msOf (jsSetDate t n) = msOf t := msOf_setter t _

theorem msOf_jsSetFullYear (t y : Int) : msOf (jsSetFullYear t y) = msOf t := msOf_setter t _

theorem msOf_jsSetHours0 (t : Int) : msOf (jsSetHours0 t) = 0 := by
  unfold jsSetHours0 msOf dayOf msPerDay at *
  omega

/-- Structural facts about the selected chart configuration: the start of
range is a midnight instant; a yearly step starts on a Jan 1; a monthly step
chosen in the `all` branch starts on a day 1. -/
theorem chartPlan_props (period : ChartPeriod) (now : Int) (entries : List CaffeineEntry)
    (plan : ChartCfg) (hplan : chartPlan period now entries = some plan) :
    msOf plan.startDate = 0 ∧
    (plan.step = Step.year →
      (civilOf plan.startDate).day = 1 ∧ (civilOf plan.startDate).month = 1) ∧
    (plan.step = Step.month → period = ChartPeriod.year ∨ (civilOf plan.startDate).day = 1) := by
  cases period with
  | week =>
      simp only [chartPlan, Option.some.injEq] at hplan
      subst hplan
      refine ⟨?_, by intro h; exact absurd h (by simp), by intro h; exact absurd h (by simp)⟩
      rw [msOf_jsSetDate, msOf_jsSetHours0]
  | month =>
      simp only [chartPlan, Option.some.injEq] at hplan
      subst hplan
      refine ⟨?_, by intro h; exact absurd h (by simp), by intro h; exact absurd h (by simp)⟩
      rw [msOf_jsSetDate, msOf_jsSetHours0]
  | year =>
      simp only [chartPlan, Option.some.injEq] at hplan
      subst hplan
      refine ⟨?_, by intro h; exact absurd h (by simp), by intro h; exact Or.inl rfl⟩
      rw [msOf_jsSetFullYear, msOf_jsSetHours0]
  | all =>
      simp only [chartPlan] at hplan
      rcases hmin : minTs entries with _ | e0 <;> rw [hmin] at hplan
      · simp at hplan
      rcases hmax : maxTs entries with _ | e1 <;> rw [hmax] at hplan
      · simp at hplan
      simp only at hplan
      split at hplan
      · simp only [Option.some.injEq] at hplan
        subst hplan
        refine ⟨msOf_jsSetHours0 e0, by intro h; exact absurd h (by simp),
          by intro h; exact absurd h (by simp)⟩
      · split at hplan
        · simp only [Option.some.injEq] at hplan
          subst hplan
          have hday1 : (civilOf (jsSetDate (jsSetHours0 e0) 1)).day = 1 := by
            have hms0 : msOf (jsSetHours0 e0) = 0 := msOf_jsSetHours0 e0
            have h1 := jsSetDate_one (jsSetHours0 e0)
            obtain ⟨hm1, hm2, hd1, hd2⟩ := civilOf_valid (jsSetHours0 e0)
            have hrt := civilOf_roundtrip (jsSetHours0 e0)
            have hday : dayOf (jsSetDate (jsSetHours0 e0) 1) =
                dayOfCivil (civilOf (jsSetHours0 e0)).year (civilOf (jsSetHours0 e0)).month 1 := by
              rw [h1]
              rw [dayOfCivil_linear] at hrt
              unfold dayOf msOf msPerDay at *
              omega
            unfold civilOf
            rw [hday]
            rw [dayOfCivil_roundtrip _ _ 1 hm1 hm2 (by norm_num)
              (by have := monthLen_bound (leapInt (civilOf (jsSetHours0 e0)).year)
                    (civilOf (jsSetHours0 e0)).month
                    (leapInt_bound _).1 (leapInt_bound _).2
                  omega)]
          refine ⟨?_, by intro h; exact absurd h (by simp),
            by intro h; exact Or.inr hday1⟩
          rw [msOf_jsSetDate, msOf_jsSetHours0]
        · simp only [Option.some.injEq] at hplan
          subst hplan
          refine ⟨?_, ?_, by intro h; exact absurd h (by simp)⟩
          · exact (jsNewDateYMD_jan1 _).1
          · intro _
            rw [(jsNewDateYMD_jan1 _).2.1]
            exact ⟨rfl, rfl⟩

/-- C2 (amended).  For every period, `now` and entry set the chart returns
`labels` and `values` of equal length; and that length equals the inclusive
calendar-step count between the computed start and end of range for every
daily-step and yearly-step invocation, and for monthly-step invocations whose
start is aligned to day 1 of a month (as the `period=all` monthly branch
always is).  The unaligned monthly walk of `period=year` can skip months, so
the count part does not hold for it (see the counterexample). -/
theorem chart_lengths (period : ChartPeriod) (now : Int) (entries : List CaffeineEntry) :
    (caffeineChart period now entries).labels.length =
      (caffeineChart period now entries).values.length ∧
    (∀ plan, chartPlan period now entries = some plan →
      (plan.step = Step.day ∨ plan.step = Step.year ∨
        (plan.step = Step.month ∧ (civilOf plan.startDate).day = 1)) →
      (caffeineChart period now entries).labels.length =
        (calendarStepsInclusive plan.step plan.startDate (jsSetHours0 now)).toNat) := by
  constructor
  · unfold caffeineChart
    rcases h : chartPlan period now entries with _ | plan
    · rfl
    · simp
  · intro plan hplan hstep
    obtain ⟨hms, hyear, _⟩ := chartPlan_props period now entries plan hplan
    have hmst : msOf (jsSetHours0 now) = 0 := msOf_jsSetHours0 now
    unfold caffeineChart
    rw [hplan]
    simp only [List.length_map]
    rcases hstep with hd | hy | ⟨hm, hd1⟩
    · rw [hd]
      rw [chartAxis_day_eq _ _ hms hmst]
      simp only [List.length_map, List.length_range]
      unfold calendarStepsInclusive
      have : (jsSetHours0 now - plan.startDate) / msPerDay =
          dayOf (jsSetHours0 now) - dayOf plan.startDate := by
        unfold msOf at hms hmst
        unfold dayOf msPerDay at *
        omega
      rw [this]
    · rw [hy]
      obtain ⟨hda, hmo⟩ := hyear hy
      rw [chartAxis_year_len _ _ hms hmst hda hmo]
      rfl
    · rw [hm]
      rw [chartAxis_month_len _ _ hms hmst hd1]
      rfl

theorem chart_lengths_witness :
    (caffeineChart ChartPeriod.week (msPerDay * dayOfCivil 2024 1 7) []).labels.length =
      (caffeineChart ChartPeriod.week (msPerDay * dayOfCivil 2024 1 7) []).values.length ∧
    (caffeineChart ChartPeriod.week (msPerDay * dayOfCivil 2024 1 7) []).labels.length =
      (calendarStepsInclusive Step.day
        (jsSetDate (jsSetHours0 (msPerDay * dayOfCivil 2024 1 7))
          (jsGetDate (jsSetHours0 (msPerDay * dayOfCivil 2024 1 7)) - 6))
        (jsSetHours0 (msPerDay * dayOfCivil 2024 1 7))).toNat :=
  ⟨(chart_lengths ChartPeriod.week (msPerDay * dayOfCivil 2024 1 7) []).1,
   (chart_lengths ChartPeriod.week (msPerDay * dayOfCivil 2024 1 7) []).2 _ rfl (Or.inl rfl)⟩

/-- C2 counterexample.  At `now` = 2024-01-31 (midnight) with an empty store
and `period=year`, the monthly walk starts at 2023-01-31; the inclusive count
of calendar months between the computed start (2023-01) and end (2024-01) of
range is 13, but the chart emits only 12 (label/value) pairs, because the
`setMonth(+1)` walk drifts past February. -/
theorem chart_steps_count_cex :
    ((chartPlan ChartPeriod.year (msPerDay * dayOfCivil 2024 1 31) []).map
        (fun p => (p.startDate,
          calendarStepsInclusive Step.month p.startDate
            (jsSetHours0 (msPerDay * dayOfCivil 2024 1 31))))) =
      some (msPerDay * dayOfCivil 2023 1 31, 13) ∧
    (caffeineChart ChartPeriod.year (msPerDay * dayOfCivil 2024 1 31) []).labels.length = 12 := by
  constructor
  · decide
  · decide

/-- C3 (code-bug demonstration).  For `period=year` at `now` = 2024-01-31 the
start of range keeps day-of-month 31 (it is not truncated to the first of its
month), and the month walk then normalises Feb 31 to Mar 3: the emitted labels
jump from "Jan" straight to "Mar", skipping the 2023-02 bucket entirely. -/
theorem chart_year_month_walk_bug :
    ((chartPlan ChartPeriod.year (msPerDay * dayOfCivil 2024 1 31) []).map
        (fun p => (civilOf p.startDate).day)) = some 31 ∧
    (caffeineChart ChartPeriod.year (msPerDay * dayOfCivil 2024 1 31) []).labels =
      ["Jan", "Mar", "Apr", "May", "Jun", "Jul", "Aug", "Sep", "Oct", "Nov", "Dec", "Jan"] := by
  constructor
  · decide
  · decide

/-- C4 (amended).  For `period=all` with a non-empty entry set whose inclusive
day span (earliest entry day to latest entry day) is at most 90 days, the
chart takes the daily branch with the earliest entry's midnight as start of
range, and the number of emitted pairs is the inclusive day count from that
start to *today* (the midnight of `now`) — which equals the span exactly when
the latest entry falls on today. -/
theorem chart_all_daily_axis (now : Int) (entries : List CaffeineEntry) (e0 e1 : Int)
    (hmin : minTs entries = some e0) (hmax : maxTs entries = some e1)
    (hspan : (jsSetHours0 e1 - jsSetHours0 e0) / msPerDay + 1 ≤ 90) :
    chartPlan ChartPeriod.all now entries = some ⟨jsSetHours0 e0, Step.day, fmtMonthDay⟩ ∧
    (caffeineChart ChartPeriod.all now entries).labels.length =
      (dayOf (jsSetHours0 now) - dayOf (jsSetHours0 e0) + 1).toNat ∧
    (dayOf e1 = dayOf now →
      (caffeineChart ChartPeriod.all now entries).labels.length =
        ((jsSetHours0 e1 - jsSetHours0 e0) / msPerDay + 1).toNat) := by
  have hplan : chartPlan ChartPeriod.all now entries =
      some ⟨jsSetHours0 e0, Step.day, fmtMonthDay⟩ := by
    simp only [chartPlan, hmin, hmax]
    rw [if_pos hspan]
  have hms : msOf (jsSetHours0 e0) = 0 := msOf_jsSetHours0 e0
  have hmst : msOf (jsSetHours0 now) = 0 := msOf_jsSetHours0 now
  have hlen : (caffeineChart ChartPeriod.all now entries).labels.length =
      (dayOf (jsSetHours0 now) - dayOf (jsSetHours0 e0) + 1).toNat := by
    unfold caffeineChart
    rw [hplan]
    simp only [List.length_map]
    rw [chartAxis_day_eq _ _ hms hmst]
    simp only [List.length_map, List.length_range]
    have : (jsSetHours0 now - jsSetHours0 e0) / msPerDay =
        dayOf (jsSetHours0 now) - dayOf (jsSetHours0 e0) := by
      unfold msOf at hms hmst
      unfold dayOf msPerDay at *
      omega
    rw [this]
  refine ⟨hplan, hlen, ?_⟩
  intro hde
  rw [hlen]
  have h0 := jsSetHours0_le e0
  have h1 := jsSetHours0_le e1
  have hn := jsSetHours0_le now
  have : (jsSetHours0 e1 - jsSetHours0 e0) / msPerDay = dayOf e1 - dayOf e0 := by
    unfold jsSetHours0 dayOf msPerDay at *
    omega
  rw [this]
  have : dayOf (jsSetHours0 now) = dayOf now := hn.2.2.1
  have : dayOf (jsSetHours0 e0) = dayOf e0 := h0.2.2.1
  omega

/-- C4 counterexample.  Entries spanning exactly 45 days (2024-01-01 to
2024-02-14) with `now` = 2024-03-01: the daily branch is taken (span ≤ 90),
but the chart emits 61 pairs — the axis runs to today, not to the latest
entry day — refuting "count = span = 45". -/
theorem chart_all_daily_axis_cex :
    (caffeineChart ChartPeriod.all (msPerDay * dayOfCivil 2024 3 1)
        [⟨"e1", "Coffee", "Large", "Large Coffee", 50, "", msPerDay * dayOfCivil 2024 1 1,
          false, "u1", "U", none⟩,
         ⟨"e2", "Coffee", "Large", "Large Coffee", 30, "", msPerDay * dayOfCivil 2024 2 14,
          false, "u1", "U", none⟩]).labels.length = 61 ∧
    dayOfCivil 2024 2 14 - dayOfCivil 2024 1 1 + 1 = 45 := by
  constructor
  · decide
  · decide

theorem chart_all_daily_axis_witness :
    (caffeineChart ChartPeriod.all (msPerDay * dayOfCivil 2024 2 14)
        [⟨"e1", "Coffee", "Large", "Large Coffee", 50, "", msPerDay * dayOfCivil 2024 1 1,
          false, "u1", "U", none⟩,
         ⟨"e2", "Coffee", "Large", "Large Coffee", 30, "", msPerDay * dayOfCivil 2024 2 14,
          false, "u1", "U", none⟩]).labels.length =
      ((jsSetHours0 (msPerDay * dayOfCivil 2024 2 14) -
          jsSetHours0 (msPerDay * dayOfCivil 2024 1 1)) / msPerDay + 1).toNat ∧
    ((jsSetHours0 (msPerDay * dayOfCivil 2024 2 14) -
        jsSetHours0 (msPerDay * dayOfCivil 2024 1 1)) / msPerDay + 1).toNat = 45 :=
  ⟨(chart_all_daily_axis (msPerDay * dayOfCivil 2024 2 14)
      [⟨"e1", "Coffee", "Large", "Large Coffee", 50, "", msPerDay * dayOfCivil 2024 1 1,
        false, "u1", "U", none⟩,
       ⟨"e2", "Coffee", "Large", "Large Coffee", 30, "", msPerDay * dayOfCivil 2024 2 14,
        false, "u1", "U", none⟩]
      (msPerDay * dayOfCivil 2024 1 1) (msPerDay * dayOfCivil 2024 2 14)
      (by decide) (by decide) (by decide)).2.2 (by decide),
   by decide⟩

/-! ### Label distinctness helpers -/

theorem string_length_data (s : String) : s.length = s.data.length := by
  cases s
  rfl

theorem string_append_inj (a b c d : String) (hlen : a.length = c.length)
    (h : a ++ b = c ++ d) : a = c ∧ b = d := by
  have hdata := congrArg String.data h
  simp only [String.data_append] at hdata
  have hl : a.data.length = c.data.length := by
    rw [← string_length_data, ← string_length_data, hlen]
  obtain ⟨h1, h2⟩ := List.append_inj hdata hl
  constructor
  · cases a; cases c; exact congrArg String.mk h1
  · cases b; cases d; exact congrArg String.mk h2

theorem monthShortName_length (m : Int) : (monthShortName m).length = 3 := by
  unfold monthShortName
  repeat' split
  all_goals rfl

theorem monthShortName_inj (m1 m2 : Int) (h1 : 0 ≤ m1) (h2 : m1 ≤ 11)
    (h3 : 0 ≤ m2) (h4 : m2 ≤ 11) (h : monthShortName m1 = monthShortName m2) :
    m1 = m2 := by
  interval_cases m1 <;> interval_cases m2 <;> revert h <;> decide

/-- Splitting a `"Mon X"`-shaped label: the month name and the numeric tail
are both determined. -/
theorem monLabel_split (m1 m2 : Int) (s1 s2 : String)
    (h : monthShortName m1 ++ " " ++ s1 = monthShortName m2 ++ " " ++ s2) :
    monthShortName m1 = monthShortName m2 ∧ s1 = s2 := by
  have hassoc : ∀ (n t : String), n ++ " " ++ t = n ++ (" " ++ t) := by
    intro n t
    exact String.append_assoc n " " t
  rw [hassoc, hassoc] at h
  have hlen : (monthShortName m1).length = (monthShortName m2).length := by
    rw [monthShortName_length, monthShortName_length]
  obtain ⟨ha, hb⟩ := string_append_inj _ _ _ _ hlen h
  refine ⟨ha, ?_⟩
  obtain ⟨_, h2⟩ := string_append_inj " " s1 " " s2 rfl hb
  exact h2

/-- Two midnight instants less than 300 days apart render different
`"Mon D"` labels unless they are the same instant. -/
theorem fmtMonthDay_inj_window (a b : Int) (hmsa : msOf a = 0) (hmsb : msOf b = 0)
    (hab : a < b) (hwin : b - a < 300 * msPerDay) :
    fmtMonthDay a ≠ fmtMonthDay b := by
  intro h
  unfold fmtMonthDay at h
  obtain ⟨hma, hda⟩ := monLabel_split _ _ _ _ h
  obtain ⟨am1, am2, ad1, ad2⟩ := civilOf_valid a
  obtain ⟨bm1, bm2, bd1, bd2⟩ := civilOf_valid b
  have hmeq : (civilOf a).month = (civilOf b).month := by
    have := monthShortName_inj (jsGetMonth a) (jsGetMonth b)
      (by unfold jsGetMonth; omega) (by unfold jsGetMonth; omega)
      (by unfold jsGetMonth; omega) (by unfold jsGetMonth; omega) hma
    unfold jsGetMonth at this
    omega
  have hdeq : (civilOf a).day = (civilOf b).day := by
    have := intDecimal_inj _ _ hda
    unfold jsGetDate at this
    exact this
  have hrta := civilOf_roundtrip a
  have hrtb := civilOf_roundtrip b
  have hdayab : dayOf a < dayOf b := by
    have hsa := day_ms_split a
    have hsb := day_ms_split b
    unfold msPerDay at *
    omega
  by_cases hyeq : (civilOf a).year = (civilOf b).year
  · have : dayOf a = dayOf b := by
      rw [← hrta, ← hrtb, hyeq, hmeq, hdeq]
    omega
  · have hoffd : ∀ l1 l2 m : Int, 0 ≤ l1 → l1 ≤ 1 → 0 ≤ l2 → l2 ≤ 1 →
        monthOff l1 m - monthOff l2 m ≤ 1 ∧ monthOff l2 m - monthOff l1 m ≤ 1 := by
      intro l1 l2 m hl1 hl2 hl3 hl4
      simp only [monthOff]
      omega
    have hya := leapInt_bound (civilOf a).year
    have hyb := leapInt_bound (civilOf b).year
    have hgap : ∀ y1 y2 m d : Int, y1 < y2 →
        dayOfCivil y2 m d - dayOfCivil y1 m d ≥ 364 := by
      intro y1 y2 m d hy
      have hg := gdays_mono_ge y1 (y2 - y1).toNat
      rw [show y1 + ((y2 - y1).toNat : Int) = y2 from by omega] at hg
      have ho := hoffd (leapInt y2) (leapInt y1) m
        (leapInt_bound _).1 (leapInt_bound _).2 (leapInt_bound _).1 (leapInt_bound _).2
      unfold dayOfCivil
      have : (365 : Int) * ((y2 - y1).toNat : Int) ≥ 365 := by
        have : ((y2 - y1).toNat : Int) ≥ 1 := by omega
        nlinarith
      omega
    have hdays : dayOf b - dayOf a < 300 := by
      have hsa := day_ms_split a
      have hsb := day_ms_split b
      unfold msPerDay at *
      omega
    have hB : dayOfCivil (civilOf b).year (civilOf a).month (civilOf a).day = dayOf b := by
      rw [hmeq, hdeq]
      exact hrtb
    rcases lt_or_gt_of_ne hyeq with hy | hy
    · have := hgap (civilOf a).year (civilOf b).year (civilOf a).month (civilOf a).day hy
      rw [hrta, hB] at this
      omega
    · have := hgap (civilOf b).year (civilOf a).year (civilOf a).month (civilOf a).day hy
      rw [hrta, hB] at this
      omega

theorem fmtMonthYear_inj (a b : Int) (hne : monthIdx (civilOf a) ≠ monthIdx (civilOf b)) :
    fmtMonthYear a ≠ fmtMonthYear b := by
  intro h
  unfold fmtMonthYear at h
  obtain ⟨hm, hy⟩ := monLabel_split _ _ _ _ h
  obtain ⟨am1, am2, _, _⟩ := civilOf_valid a
  obtain ⟨bm1, bm2, _, _⟩ := civilOf_valid b
  have hmeq : (civilOf a).month = (civilOf b).month := by
    have := monthShortName_inj (jsGetMonth a) (jsGetMonth b)
      (by unfold jsGetMonth; omega) (by unfold jsGetMonth; omega)
      (by unfold jsGetMonth; omega) (by unfold jsGetMonth; omega) hm
    unfold jsGetMonth at this
    omega
  have hyeq : (civilOf a).year = (civilOf b).year := by
    have := intDecimal_inj _ _ hy
    unfold jsGetFullYear at this
    exact this
  unfold monthIdx at hne
  omega

theorem fmtYear_inj (a b : Int) (hne : (civilOf a).year ≠ (civilOf b).year) :
    fmtYear a ≠ fmtYear b := by
  intro h
  unfold fmtYear at h
  have := intDecimal_inj _ _ h
  unfold jsGetFullYear at this
  exact hne this

/-- The daily axis over a window shorter than 299 days renders pairwise
distinct `"Mon D"` labels. -/
theorem dayAxis_labels_nodup (s today : Int) (hs : msOf s = 0) (ht : msOf today = 0)
    (hwin : today - s < 298 * msPerDay) :
    ((chartAxis Step.day s today).map fmtMonthDay).Nodup := by
  rw [chartAxis_day_eq _ _ hs ht, List.map_map]
  have hn : (((today - s) / msPerDay + 1).toNat : Int) < 299 := by
    unfold msOf at hs ht
    unfold msPerDay at *
    omega
  have hpw := List.pairwise_lt_range (((today - s) / msPerDay + 1).toNat)
  have hpw2 : (List.range (((today - s) / msPerDay + 1).toNat)).Pairwise
      (fun i j => (fmtMonthDay ∘ fun i : Nat => s + (i : Int) * msPerDay) i ≠
        (fmtMonthDay ∘ fun i : Nat => s + (i : Int) * msPerDay) j) := by
    apply hpw.imp_of_mem
    intro i j hi hj hij
    simp only [Function.comp]
    apply fmtMonthDay_inj_window
    · unfold msOf at hs ⊢
      unfold msPerDay at *
      omega
    · unfold msOf at hs ⊢
      unfold msPerDay at *
      omega
    · have : (i : Int) < (j : Int) := by exact_mod_cast hij
      unfold msPerDay at *
      omega
    · have hjn : j < ((today - s) / msPerDay + 1).toNat := List.mem_range.mp hj
      have : (j : Int) < (((today - s) / msPerDay + 1).toNat : Int) := by exact_mod_cast hjn
      have : (j : Int) - (i : Int) < 299 := by omega
      have hcast : ((i : Int) ≥ 0) := by positivity
      unfold msPerDay at *
      nlinarith
  exact hpw2.map _ (fun a b hab => hab)

/-- C5 (amended).  Distinct buckets render distinct labels for `period=week`
and `period=month` (daily axes at most 30 days long), and for `period=all`
whenever the entry span exceeds 90 days (the `"Mon YYYY"` monthly and
`"YYYY"` yearly branches).  The claim fails for `period=year` — the
month-name-only labels repeat across the 13-month axis (see the
counterexample) — and can fail in the daily branch of `period=all` when the
axis stretches from the earliest entry to a `now` more than a year later. -/
theorem chart_labels_distinct (now : Int) (entries : List CaffeineEntry) :
    (caffeineChart ChartPeriod.week now entries).labels.Nodup ∧
    (caffeineChart ChartPeriod.month now entries).labels.Nodup ∧
    (∀ e0 e1, minTs entries = some e0 → maxTs entries = some e1 →
      90 < (jsSetHours0 e1 - jsSetHours0 e0) / msPerDay + 1 →
      (caffeineChart ChartPeriod.all now entries).labels.Nodup) := by
  have hmsnow : msOf (jsSetHours0 now) = 0 := msOf_jsSetHours0 now
  refine ⟨?_, ?_, ?_⟩
  · have hplan : chartPlan ChartPeriod.week now entries =
        some ⟨jsSetDate (jsSetHours0 now) (jsGetDate (jsSetHours0 now) - 6),
          Step.day, fmtMonthDay⟩ := rfl
    unfold caffeineChart
    rw [hplan]
    show ((chartAxis Step.day
        (jsSetDate (jsSetHours0 now) (jsGetDate (jsSetHours0 now) - 6))
        (jsSetHours0 now)).map fmtMonthDay).Nodup
    have hs6 : jsSetDate (jsSetHours0 now) (jsGetDate (jsSetHours0 now) - 6) =
        jsSetHours0 now - 6 * msPerDay := by
      have h := jsSetDate_shift (jsSetHours0 now) (-6)
      rw [show jsGetDate (jsSetHours0 now) + (-6) =
        jsGetDate (jsSetHours0 now) - 6 from by ring] at h
      rw [h]
      ring
    apply dayAxis_labels_nodup _ _ _ hmsnow
    · rw [hs6]
      unfold msPerDay
      omega
    · rw [hs6]
      unfold msOf at hmsnow ⊢
      unfold msPerDay at *
      omega
  · have hplan : chartPlan ChartPeriod.month now entries =
        some ⟨jsSetDate (jsSetHours0 now) (jsGetDate (jsSetHours0 now) - 29),
          Step.day, fmtMonthDay⟩ := rfl
    unfold caffeineChart
    rw [hplan]
    show ((chartAxis Step.day
        (jsSetDate (jsSetHours0 now) (jsGetDate (jsSetHours0 now) - 29))
        (jsSetHours0 now)).map fmtMonthDay).Nodup
    have hs29 : jsSetDate (jsSetHours0 now) (jsGetDate (jsSetHours0 now) - 29) =
        jsSetHours0 now - 29 * msPerDay := by
      have h := jsSetDate_shift (jsSetHours0 now) (-29)
      rw [show jsGetDate (jsSetHours0 now) + (-29) =
        jsGetDate (jsSetHours0 now) - 29 from by ring] at h
      rw [h]
      ring
    apply dayAxis_labels_nodup _ _ _ hmsnow
    · rw [hs29]
      unfold msPerDay
      omega
    · rw [hs29]
      unfold msOf at hmsnow ⊢
      unfold msPerDay at *
      omega
  · intro e0 e1 hmin hmax hspan
    by_cases h540 : (jsSetHours0 e1 - jsSetHours0 e0) / msPerDay + 1 ≤ 18 * 30
    · have hplan : chartPlan ChartPeriod.all now entries =
          some ⟨jsSetDate (jsSetHours0 e0) 1, Step.month, fmtMonthYear⟩ := by
        simp only [chartPlan, hmin, hmax]
        rw [if_neg (by omega), if_pos h540]
      obtain ⟨hms, _, hmonth⟩ := chartPlan_props ChartPeriod.all now entries _ hplan
      rcases hmonth rfl with habs | hday1
      · exact absurd habs (by simp)
      unfold caffeineChart
      rw [hplan]
      show ((chartAxis Step.month (jsSetDate (jsSetHours0 e0) 1)
          (jsSetHours0 now)).map fmtMonthYear).Nodup
      obtain ⟨_, hpw⟩ := monthAxisGo_elems
        (axisFuel (jsSetDate (jsSetHours0 e0) 1) (jsSetHours0 now))
        (jsSetDate (jsSetHours0 e0) 1) (jsSetHours0 now) hms hday1
      exact hpw.map _ (fun a b hab => fmtMonthYear_inj a b (by omega))
    · have hplan : chartPlan ChartPeriod.all now entries =
          some ⟨jsNewDateYMD (jsGetFullYear (jsSetHours0 e0)) 0 1, Step.year, fmtYear⟩ := by
        simp only [chartPlan, hmin, hmax]
        rw [if_neg (by omega), if_neg h540]
      obtain ⟨hms, hyearp, _⟩ := chartPlan_props ChartPeriod.all now entries _ hplan
      obtain ⟨hday1, hmon1⟩ := hyearp rfl
      unfold caffeineChart
      rw [hplan]
      show ((chartAxis Step.year (jsNewDateYMD (jsGetFullYear (jsSetHours0 e0)) 0 1)
          (jsSetHours0 now)).map fmtYear).Nodup
      obtain ⟨_, hpw⟩ := yearAxisGo_elems
        (axisFuel (jsNewDateYMD (jsGetFullYear (jsSetHours0 e0)) 0 1) (jsSetHours0 now))
        (jsNewDateYMD (jsGetFullYear (jsSetHours0 e0)) 0 1) (jsSetHours0 now) hms hday1 hmon1
      exact hpw.map _ (fun a b hab => fmtYear_inj a b (by omega))

/-- C5 counterexample.  For `period=year` at `now` = 2024-06-15 the chart has
13 monthly buckets and its first and last (distinct) buckets both render the
label `"Jun"`. -/
theorem chart_year_labels_cex :
    (caffeineChart ChartPeriod.year (msPerDay * dayOfCivil 2024 6 15) []).labels.length = 13 ∧
    (caffeineChart ChartPeriod.year (msPerDay * dayOfCivil 2024 6 15) []).labels[0]? =
      some "Jun" ∧
    (caffeineChart ChartPeriod.year (msPerDay * dayOfCivil 2024 6 15) []).labels[12]? =
      some "Jun" := by
  refine ⟨by decide, by decide, by decide⟩

theorem chart_labels_distinct_witness :
    (caffeineChart ChartPeriod.all (msPerDay * dayOfCivil 2024 3 1)
        [⟨"e1", "Coffee", "Large", "Large Coffee", 50, "", msPerDay * dayOfCivil 2023 1 1,
          false, "u1", "U", none⟩,
         ⟨"e2", "Coffee", "Large", "Large Coffee", 30, "", msPerDay * dayOfCivil 2024 2 14,
          false, "u1", "U", none⟩]).labels.Nodup :=
  (chart_labels_distinct (msPerDay * dayOfCivil 2024 3 1)
      [⟨"e1", "Coffee", "Large", "Large Coffee", 50, "", msPerDay * dayOfCivil 2023 1 1,
        false, "u1", "U", none⟩,
       ⟨"e2", "Coffee", "Large", "Large Coffee", 30, "", msPerDay * dayOfCivil 2024 2 14,
        false, "u1", "U", none⟩]).2.2
    (msPerDay * dayOfCivil 2023 1 1) (msPerDay * dayOfCivil 2024 2 14)
    (by decide) (by decide) (by decide)

theorem chart_sum_correct_witness :
    (caffeineChart ChartPeriod.week (msPerDay * dayOfCivil 2024 1 7)
        [⟨"e1", "Coffee", "Large", "Large Coffee", 50, "",
            msPerDay * dayOfCivil 2024 1 1, false, "u1", "U", none⟩,
         ⟨"e2", "Coffee", "Large", "Large Coffee", 30, "",
            msPerDay * dayOfCivil 2024 1 3, false, "u1", "U", none⟩]).values[0]? =
      some ((([⟨"e1", "Coffee", "Large", "Large Coffee", 50, "",
            msPerDay * dayOfCivil 2024 1 1, false, "u1", "U", none⟩,
         (⟨"e2", "Coffee", "Large", "Large Coffee", 30, "",
            msPerDay * dayOfCivil 2024 1 3, false, "u1", "U", none⟩ : CaffeineEntry)].filter
          fun e =>
            inWindow (jsSetDate (jsSetHours0 (msPerDay * dayOfCivil 2024 1 7))
                (jsGetDate (jsSetHours0 (msPerDay * dayOfCivil 2024 1 7)) - 6))
              (msPerDay * dayOfCivil 2024 1 7) e &&
            decide (entryBucketKey Step.day e.timestamp =
              axisBucketKey Step.day
                (jsSetDate (jsSetHours0 (msPerDay * dayOfCivil 2024 1 7))
                  (jsGetDate (jsSetHours0 (msPerDay * dayOfCivil 2024 1 7)) - 6)))).map
        fun e => e.caffeineMg).sum) ∧
    ((([⟨"e1", "Coffee", "Large", "Large Coffee", 50, "",
            msPerDay * dayOfCivil 2024 1 1, false, "u1", "U", none⟩,
         (⟨"e2", "Coffee", "Large", "Large Coffee", 30, "",
            msPerDay * dayOfCivil 2024 1 3, false, "u1", "U", none⟩ : CaffeineEntry)].filter
          fun e =>
            inWindow (jsSetDate (jsSetHours0 (msPerDay * dayOfCivil 2024 1 7))
                (jsGetDate (jsSetHours0 (msPerDay * dayOfCivil 2024 1 7)) - 6))
              (msPerDay * dayOfCivil 2024 1 7) e &&
            decide (entryBucketKey Step.day e.timestamp =
              axisBucketKey Step.day
                (jsSetDate (jsSetHours0 (msPerDay * dayOfCivil 2024 1 7))
                  (jsGetDate (jsSetHours0 (msPerDay * dayOfCivil 2024 1 7)) - 6)))).map
        fun e => e.caffeineMg).sum) = 50 :=
  ⟨chart_sum_correct ChartPeriod.week (msPerDay * dayOfCivil 2024 1 7)
      [⟨"e1", "Coffee", "Large", "Large Coffee", 50, "",
          msPerDay * dayOfCivil 2024 1 1, false, "u1", "U", none⟩,
       ⟨"e2", "Coffee", "Large", "Large Coffee", 30, "",
          msPerDay * dayOfCivil 2024 1 3, false, "u1", "U", none⟩]
      ⟨jsSetDate (jsSetHours0 (msPerDay * dayOfCivil 2024 1 7))
          (jsGetDate (jsSetHours0 (msPerDay * dayOfCivil 2024 1 7)) - 6),
        Step.day, fmtMonthDay⟩ rfl 0
      (jsSetDate (jsSetHours0 (msPerDay * dayOfCivil 2024 1 7))
        (jsGetDate (jsSetHours0 (msPerDay * dayOfCivil 2024 1 7)) - 6))
      (by decide),
   by decide⟩

/-! ### Grouping lemmas -/

theorem addToGroup_ids (e : CaffeineEntry) : ∀ acc : List LeaderRow,
    ∀ r' ∈ addToGroup acc e, r'.userId ∈ acc.map (fun r => r.userId) ∨ r'.userId = e.userId := by
  intro acc
  induction acc with
  | nil =>
      intro r' hr'
      simp only [addToGroup] at hr'
      rcases List.mem_singleton.mp hr' with h
      right
      rw [h]
      rfl
  | cons r rest ih =>
      intro r' hr'
      simp only [addToGroup] at hr'
      by_cases h : r.userId = e.userId
      · rw [if_pos h] at hr'
        rcases List.mem_cons.mp hr' with he | hm
        · right
          rw [he]
          exact h
        · left
          simp only [List.map_cons, List.mem_cons]
          right
          exact List.mem_map_of_mem _ hm
      · rw [if_neg h] at hr'
        rcases List.mem_cons.mp hr' with he | hm
        · left
          rw [he]
          simp
        · rcases ih r' hm with hin | heq
          · left
            simp only [List.map_cons, List.mem_cons]
            right
            exact hin
          · right
            exact heq

theorem addToGroup_invariant (e : CaffeineEntry) :
    ∀ acc : List LeaderRow, ∀ (S : String → Int) (C : String → Nat),
    (acc.map (fun r => r.userId)).Nodup →
    (∀ r ∈ acc, r.totalCaffeine = S r.userId ∧ r.entryCount = C r.userId) →
    (∀ u, (∀ r ∈ acc, r.userId ≠ u) → S u = 0 ∧ C u = 0) →
    ((addToGroup acc e).map (fun r => r.userId)).Nodup ∧
    (∀ r ∈ addToGroup acc e,
      r.totalCaffeine = S r.userId + (if e.userId = r.userId then e.caffeineMg else 0) ∧
      r.entryCount = C r.userId + (if e.userId = r.userId then 1 else 0)) ∧
    (∀ u, (∀ r ∈ addToGroup acc e, r.userId ≠ u) →
      S u + (if e.userId = u then e.caffeineMg else 0) = 0 ∧
      C u + (if e.userId = u then 1 else 0) = 0) := by
  intro acc
  induction acc with
  | nil =>
      intro S C hnd hacc hcover
      refine ⟨by simp [addToGroup, rowOf], ?_, ?_⟩
      · intro r hr
        simp only [addToGroup] at hr
        rcases List.mem_singleton.mp hr with h
        subst h
        obtain ⟨hS, hC⟩ := hcover (rowOf e).userId (by simp)
        unfold rowOf at *
        simp at hS hC ⊢
        omega
      · intro u hu
        have hne : e.userId ≠ u := by
          have := hu (rowOf e) (by simp [addToGroup])
          exact this
        obtain ⟨hS, hC⟩ := hcover u (by simp)
        rw [if_neg hne, if_neg hne]
        omega
  | cons r rest ih =>
      intro S C hnd hacc hcover
      simp only [List.map_cons, List.nodup_cons] at hnd
      obtain ⟨hrnotin, hndrest⟩ := hnd
      simp only [addToGroup]
      by_cases h : r.userId = e.userId
      · rw [if_pos h]
        refine ⟨?_, ?_, ?_⟩
        · simp only [List.map_cons, List.nodup_cons]
          exact ⟨by unfold bumpRow; simpa using hrnotin, hndrest⟩
        · intro r2 hr2
          rcases List.mem_cons.mp hr2 with he | hm
          · subst he
            obtain ⟨hS, hC⟩ := hacc r (by simp)
            unfold bumpRow
            rw [if_pos (by rw [← h]), if_pos (by rw [← h])]
            constructor <;> simp <;> omega
          · obtain ⟨hS, hC⟩ := hacc r2 (by simp [hm])
            have hne : e.userId ≠ r2.userId := by
              intro hc
              apply hrnotin
              rw [h, hc]
              exact List.mem_map_of_mem _ hm
            rw [if_neg hne, if_neg hne]
            omega
        · intro u hu
          have hru : r.userId ≠ u := by
            have := hu (bumpRow r e) (by simp)
            unfold bumpRow at this
            exact this
          have hne : e.userId ≠ u := by rw [← h]; exact hru
          obtain ⟨hS, hC⟩ := hcover u (by
            intro r2 hr2
            rcases List.mem_cons.mp hr2 with he | hm
            · subst he; exact hru
            · exact hu r2 (by simp [hm]))
          rw [if_neg hne, if_neg hne]
          omega
      · rw [if_neg h]
        have hSr : ∀ r2 ∈ rest, r2.totalCaffeine =
            (fun u => if u = r.userId then 0 else S u) r2.userId ∧
            r2.entryCount = (fun u => if u = r.userId then 0 else C u) r2.userId := by
          intro r2 hm
          obtain ⟨hS, hC⟩ := hacc r2 (by simp [hm])
          have hne : r2.userId ≠ r.userId := by
            intro hc
            apply hrnotin
            rw [← hc]
            exact List.mem_map_of_mem _ hm
          simp only [if_neg hne]
          exact ⟨hS, hC⟩
        have hCr : ∀ u, (∀ r2 ∈ rest, r2.userId ≠ u) →
            (fun u => if u = r.userId then 0 else S u) u = 0 ∧
            (fun u => if u = r.userId then 0 else C u) u = 0 := by
          intro u hu
          by_cases hur : u = r.userId
          · simp [hur]
          · simp only [if_neg hur]
            apply hcover u
            intro r2 hr2
            rcases List.mem_cons.mp hr2 with he | hm
            · subst he
              intro hc
              exact hur hc.symm
            · exact hu r2 hm
        obtain ⟨ihnd, ihrows, ihcover⟩ := ih
          (fun u => if u = r.userId then 0 else S u)
          (fun u => if u = r.userId then 0 else C u) hndrest hSr hCr
        refine ⟨?_, ?_, ?_⟩
        · simp only [List.map_cons, List.nodup_cons]
          refine ⟨?_, ihnd⟩
          intro hc
          rcases List.mem_map.mp hc with ⟨r2, hr2mem, hr2id⟩
          rcases addToGroup_ids e rest r2 hr2mem with hin | heq
          · exact hrnotin (by rw [← hr2id]; exact hin)
          · exact h (by rw [← hr2id, heq])
        · intro r2 hr2
          rcases List.mem_cons.mp hr2 with he | hm
          · rw [he]
            obtain ⟨hS, hC⟩ := hacc r (by simp)
            have hne : e.userId ≠ r.userId := fun hc => h hc.symm
            rw [if_neg hne, if_neg hne]
            omega
          · obtain ⟨hS, hC⟩ := ihrows r2 hm
            have hner : r2.userId ≠ r.userId := by
              intro hc
              rcases addToGroup_ids e rest r2 hm with hin | heq
              · exact hrnotin (by rw [← hc]; exact hin)
              · exact h (by rw [← heq, hc])
            simp only [if_neg hner] at hS hC
            exact ⟨hS, hC⟩
        · intro u hu
          have hru : r.userId ≠ u := hu r (by simp)
          obtain ⟨hS, hC⟩ := ihcover u (by
            intro r2 hm
            exact hu r2 (by simp [hm]))
          have hunr : ¬ u = r.userId := fun hc => hru hc.symm
          simp only [if_neg hunr] at hS hC
          exact ⟨hS, hC⟩

theorem mem_insertDesc (r a : LeaderRow) : ∀ l : List LeaderRow,
    (a ∈ insertDesc r l ↔ a = r ∨ a ∈ l) := by
  intro l
  induction l with
  | nil => simp [insertDesc]
  | cons x xs ih =>
      simp only [insertDesc]
      by_cases h : x.totalCaffeine ≤ r.totalCaffeine
      · rw [if_pos h]
        simp
      · rw [if_neg h]
        simp only [List.mem_cons, ih]
        tauto

theorem sorted_insertDesc (r : LeaderRow) : ∀ l : List LeaderRow,
    l.Pairwise (fun a b => b.totalCaffeine ≤ a.totalCaffeine) →
    (insertDesc r l).Pairwise (fun a b => b.totalCaffeine ≤ a.totalCaffeine) := by
  intro l
  induction l with
  | nil => intro _; simp [insertDesc]
  | cons x xs ih =>
      intro hs
      rw [List.pairwise_cons] at hs
      obtain ⟨hx, hxs⟩ := hs
      simp only [insertDesc]
      by_cases h : x.totalCaffeine ≤ r.totalCaffeine
      · rw [if_pos h]
        rw [List.pairwise_cons]
        constructor
        · intro b hb
          rcases List.mem_cons.mp hb with he | hm
          · rw [he]; exact h
          · exact le_trans (hx b hm) h
        · rw [List.pairwise_cons]
          exact ⟨hx, hxs⟩
      · rw [if_neg h]
        rw [List.pairwise_cons]
        constructor
        · intro b hb
          rcases (mem_insertDesc r b xs).mp hb with he | hm
          · rw [he]; omega
          · exact hx b hm
        · exact ih hxs

theorem sorted_sortDesc : ∀ l : List LeaderRow,
    (sortDesc l).Pairwise (fun a b => b.totalCaffeine ≤ a.totalCaffeine) := by
  intro l
  induction l with
  | nil => simp [sortDesc]
  | cons r rs ih => exact sorted_insertDesc r _ ih

theorem mem_sortDesc (a : LeaderRow) : ∀ l : List LeaderRow, a ∈ sortDesc l ↔ a ∈ l := by
  intro l
  induction l with
  | nil => simp [sortDesc]
  | cons r rs ih =>
      simp only [sortDesc, mem_insertDesc, ih, List.mem_cons]

theorem foldl_group_spec (rest : List CaffeineEntry) :
    ∀ (acc : List LeaderRow) (S : String → Int) (C : String → Nat),
    (acc.map (fun r => r.userId)).Nodup →
    (∀ r ∈ acc, r.totalCaffeine = S r.userId ∧ r.entryCount = C r.userId) →
    (∀ u, (∀ r ∈ acc, r.userId ≠ u) → S u = 0 ∧ C u = 0) →
    ∀ r ∈ rest.foldl addToGroup acc,
      r.totalCaffeine = S r.userId +
        ((rest.filter fun e => decide (e.userId = r.userId)).map fun e => e.caffeineMg).sum ∧
      r.entryCount = C r.userId +
        (rest.filter fun e => decide (e.userId = r.userId)).length := by
  induction rest with
  | nil =>
      intro acc S C hnd hacc hcover r hr
      simp only [List.foldl_nil] at hr
      obtain ⟨hS, hC⟩ := hacc r hr
      simp only [List.filter_nil, List.map_nil, List.sum_nil, List.length_nil]
      omega
  | cons e rest ih =>
      intro acc S C hnd hacc hcover r hr
      simp only [List.foldl_cons] at hr
      obtain ⟨hnd2, hrows2, hcover2⟩ := addToGroup_invariant e acc S C hnd hacc hcover
      obtain ⟨hT, hc⟩ := ih (addToGroup acc e)
        (fun u => S u + (if e.userId = u then e.caffeineMg else 0))
        (fun u => C u + (if e.userId = u then 1 else 0)) hnd2 hrows2 hcover2 r hr
      constructor
      · rw [hT]
        by_cases hm : e.userId = r.userId
        · simp [List.filter_cons, hm]
          ring
        · simp [List.filter_cons, hm]
      · rw [hc]
        by_cases hm : e.userId = r.userId
        · simp [List.filter_cons, hm]
          omega
        · simp [List.filter_cons, hm]

theorem groupByUser_spec (es : List CaffeineEntry) :
    ∀ r ∈ groupByUser es,
      r.totalCaffeine =
        ((es.filter fun e => decide (e.userId = r.userId)).map fun e => e.caffeineMg).sum ∧
      r.entryCount = (es.filter fun e => decide (e.userId = r.userId)).length := by
  intro r hr
  have h := foldl_group_spec es [] (fun _ => 0) (fun _ => 0) (by simp) (by simp)
    (by simp) r hr
  simpa using h

/-- C6.  For every period and entry set the leaderboard output is sorted by
`totalCaffeine` descending, has length at most 50, and each element carries
the per-user sum of `caffeineMg` over that user's in-window entries as
`totalCaffeine` and the number of those entries as `entryCount`. -/
theorem leaderboard_spec (period : LeaderPeriod) (now : Int) (entries : List CaffeineEntry) :
    (leaderboard period now entries).Pairwise
      (fun a b => b.totalCaffeine ≤ a.totalCaffeine) ∧
    (leaderboard period now entries).length ≤ 50 ∧
    (∀ r ∈ leaderboard period now entries,
      r.totalCaffeine = (((entries.filter (leaderFilter period now)).filter
          fun e => decide (e.userId = r.userId)).map fun e => e.caffeineMg).sum ∧
      r.entryCount = ((entries.filter (leaderFilter period now)).filter
          fun e => decide (e.userId = r.userId)).length) := by
  refine ⟨?_, ?_, ?_⟩
  · exact (sorted_sortDesc _).sublist (List.take_sublist _ _)
  · exact List.length_take_le _ _
  · intro r hr
    have hr2 : r ∈ sortDesc (groupByUser (entries.filter (leaderFilter period now))) :=
      List.mem_of_mem_take hr
    have hr3 : r ∈ groupByUser (entries.filter (leaderFilter period now)) :=
      (mem_sortDesc r _).mp hr2
    exact groupByUser_spec _ r hr3

theorem leaderboard_spec_witness :
    (leaderboard LeaderPeriod.all (msPerDay * dayOfCivil 2024 1 7)
        [⟨"e1", "Coffee", "Large", "Large Coffee", 50, "",
            msPerDay * dayOfCivil 2024 1 1, false, "u1", "A", none⟩,
         ⟨"e2", "Coffee", "Large", "Large Coffee", 30, "",
            msPerDay * dayOfCivil 2024 1 3, false, "u1", "A", none⟩,
         ⟨"e3", "Coffee", "Large", "Large Coffee", 100, "",
            msPerDay * dayOfCivil 2024 1 2, false, "u2", "B", none⟩]).length ≤ 50 ∧
    ((⟨"u2", 100, 1, "B", none⟩ : LeaderRow).totalCaffeine = 100 ∧
      (⟨"u2", 100, 1, "B", none⟩ : LeaderRow).totalCaffeine =
        ((([⟨"e1", "Coffee", "Large", "Large Coffee", 50, "",
              msPerDay * dayOfCivil 2024 1 1, false, "u1", "A", none⟩,
            ⟨"e2", "Coffee", "Large", "Large Coffee", 30, "",
              msPerDay * dayOfCivil 2024 1 3, false, "u1", "A", none⟩,
            (⟨"e3", "Coffee", "Large", "Large Coffee", 100, "",
              msPerDay * dayOfCivil 2024 1 2, false, "u2", "B", none⟩ :
              CaffeineEntry)].filter
              (leaderFilter LeaderPeriod.all (msPerDay * dayOfCivil 2024 1 7))).filter
            fun e => decide (e.userId = (⟨"u2", 100, 1, "B", none⟩ : LeaderRow).userId)).map
          fun e => e.caffeineMg).sum) :=
  ⟨(leaderboard_spec LeaderPeriod.all (msPerDay * dayOfCivil 2024 1 7)
      [⟨"e1", "Coffee", "Large", "Large Coffee", 50, "",
          msPerDay * dayOfCivil 2024 1 1, false, "u1", "A", none⟩,
       ⟨"e2", "Coffee", "Large", "Large Coffee", 30, "",
          msPerDay * dayOfCivil 2024 1 3, false, "u1", "A", none⟩,
       ⟨"e3", "Coffee", "Large", "Large Coffee", 100, "",
          msPerDay * dayOfCivil 2024 1 2, false, "u2", "B", none⟩]).2.1,
   by decide,
   ((leaderboard_spec LeaderPeriod.all (msPerDay * dayOfCivil 2024 1 7)
      [⟨"e1", "Coffee", "Large", "Large Coffee", 50, "",
          msPerDay * dayOfCivil 2024 1 1, false, "u1", "A", none⟩,
       ⟨"e2", "Coffee", "Large", "Large Coffee", 30, "",
          msPerDay * dayOfCivil 2024 1 3, false, "u1", "A", none⟩,
       ⟨"e3", "Coffee", "Large", "Large Coffee", 100, "",
          msPerDay * dayOfCivil 2024 1 2, false, "u2", "B", none⟩]).2.2
      ⟨"u2", 100, 1, "B", none⟩ (by decide)).1⟩

/-! ## CRUD lemmas -/

lemma removeById_mem (id : String) : ∀ store : List CaffeineEntry,
    (store.map (fun x => x.id)).Nodup → ∀ e, findEntry store id = some e →
    ∀ x, x ∈ removeById store id ↔ (x ∈ store ∧ x.id ≠ id) := by
  intro store
  induction store with
  | nil => intro _ e he; simp [findEntry] at he
  | cons a rest ih =>
    intro hnd e he x
    simp only [List.map_cons, List.nodup_cons] at hnd
    by_cases ha : a.id = id
    · rw [removeById, if_pos ha]
      constructor
      · intro hx
        refine ⟨List.mem_cons_of_mem _ hx, ?_⟩
        intro hxid
        exact hnd.1 (by
          rw [← ha, ← hxid] at *
          exact List.mem_map_of_mem (fun y => y.id) hx)
      · rintro ⟨hx, hxid⟩
        rcases List.mem_cons.mp hx with rfl | hxr
        · exact absurd ha hxid
        · exact hxr
    · have hpa : decide (a.id = id) = false := decide_eq_false ha
      have he' : findEntry rest id = some e := by
        rw [findEntry] at he ⊢
        simp only [List.find?_cons, hpa, cond_false] at he
        exact he
      rw [removeById, if_neg ha]
      rw [List.mem_cons, ih hnd.2 e he' x, List.mem_cons]
      constructor
      · rintro (rfl | ⟨hxr, hxid⟩)
        · exact ⟨Or.inl rfl, ha⟩
        · exact ⟨Or.inr hxr, hxid⟩
      · rintro ⟨rfl | hxr, hxid⟩
        · exact Or.inl rfl
        · exact Or.inr ⟨hxr, hxid⟩

lemma mem_insertByName (d x : DrinkTypeDoc) : ∀ l : List DrinkTypeDoc,
    x ∈ insertByName d l ↔ (x = d ∨ x ∈ l) := by
  intro l
  induction l with
  | nil => simp [insertByName]
  | cons a as ih =>
    rw [insertByName]
    split
    · rw [List.mem_cons, ih, List.mem_cons]
      tauto
    · simp only [List.mem_cons]

lemma mem_sortByName (x : DrinkTypeDoc) : ∀ l : List DrinkTypeDoc,
    x ∈ sortByName l ↔ x ∈ l := by
  intro l
  induction l with
  | nil => simp [sortByName]
  | cons a as ih =>
    rw [sortByName, mem_insertByName, ih, List.mem_cons]

lemma find_id_nodup : ∀ store : List DrinkTypeDoc,
    (store.map (fun d => d.id)).Nodup → ∀ t ∈ store,
    store.find? (fun d => decide (d.id = t.id)) = some t := by
  intro store
  induction store with
  | nil => simp
  | cons a rest ih =>
    intro hnd t ht
    simp only [List.map_cons, List.nodup_cons] at hnd
    rcases List.mem_cons.mp ht with rfl | htr
    · simp [List.find?_cons]
    · have hane : a.id ≠ t.id := by
        intro h
        exact hnd.1 (h ▸ List.mem_map_of_mem (fun d => d.id) htr)
      simp only [List.find?_cons, decide_eq_false hane, cond_false]
      exact ih hnd.2 t htr

lemma setDeletedById_mem : ∀ store : List DrinkTypeDoc,
    (store.map (fun d => d.id)).Nodup → ∀ t ∈ store,
    ∀ x, x ∈ setDeletedById store t.id ↔
      ((x ∈ store ∧ x.id ≠ t.id) ∨ x = { t with deleted := true }) := by
  intro store
  induction store with
  | nil => simp
  | cons a rest ih =>
    intro hnd t ht x
    simp only [List.map_cons, List.nodup_cons] at hnd
    rcases List.mem_cons.mp ht with rfl | htr
    · rw [setDeletedById, if_pos rfl]
      constructor
      · intro hx
        rcases List.mem_cons.mp hx with rfl | hxr
        · exact Or.inr rfl
        · refine Or.inl ⟨List.mem_cons_of_mem _ hxr, ?_⟩
          intro hxid
          exact hnd.1 (hxid ▸ List.mem_map_of_mem (fun d => d.id) hxr)
      · rintro (⟨hx, hxid⟩ | rfl)
        · rcases List.mem_cons.mp hx with rfl | hxr
          · exact absurd rfl hxid
          · exact List.mem_cons_of_mem _ hxr
        · exact List.mem_cons_self _ _
    · have hane : a.id ≠ t.id := by
        intro h
        exact hnd.1 (h ▸ List.mem_map_of_mem (fun d => d.id) htr)
      rw [setDeletedById, if_neg hane]
      rw [List.mem_cons, ih hnd.2 t htr x, List.mem_cons]
      constructor
      · rintro (rfl | ⟨hxr, hxid⟩ | rfl)
        · exact Or.inl ⟨Or.inl rfl, hane⟩
        · exact Or.inl ⟨Or.inr hxr, hxid⟩
        · exact Or.inr rfl
      · rintro (⟨rfl | hxr, hxid⟩ | rfl)
        · exact Or.inl rfl
        · exact Or.inr (Or.inl ⟨hxr, hxid⟩)
        · exact Or.inr (Or.inr rfl)

/-! ## Claims C7-C10 -/

/-- **C7**: POST /api/entries with caffeineMg ≤ 0 (in particular 0), or with any
of drinkName, sizeName, caffeineMg missing, returns 400 and leaves the entry
store unchanged. -/
theorem postEntries_invalid_400 (store : List CaffeineEntry) (user : SessionUser)
    (body : EntryBody) (now : Int) (newId : String)
    (h : body.drinkName = none ∨ body.sizeName = none ∨ body.caffeineMg = none ∨
      (∀ c, body.caffeineMg = some c → c ≤ 0)) :
    postEntries store user body now newId = (400, store) := by
  unfold postEntries
  have hcond : (strFalsy body.drinkName || strFalsy body.sizeName || numFalsy body.caffeineMg ||
      decide (body.caffeineMg.getD 0 ≤ 0)) = true := by
    rcases h with h | h | h | h
    · simp [strFalsy, h]
    · simp [strFalsy, h]
    · simp [numFalsy, h]
    · cases hc : body.caffeineMg with
      | none => simp [numFalsy]
      | some c =>
          have hcle := h c hc
          simp only [numFalsy, hc, Option.getD_some, Bool.or_eq_true, decide_eq_true_eq]
          omega
  rw [if_pos hcond]

/-- Witness for C7: caffeineMg = 0 on an empty store is rejected with 400. -/
theorem postEntries_invalid_400_witness :
    postEntries [] ⟨"g1", "a@b.c", "Ann", none⟩
      ⟨some "Coffee", some "Large", some 0, none, none⟩ 17 "id1" = (400, []) :=
  postEntries_invalid_400 _ _ _ _ _
    (Or.inr (Or.inr (Or.inr (fun c hc => by injection hc with h; omega))))

/-- **C8**: DELETE /api/entries/:id (session variant): a missing id gives 404 with
the store unchanged; a non-owning caller gets 403 with the store unchanged (the
entry remains); the owning caller gets 200 and, for stores with distinct ids,
exactly the entry with the requested id is removed. -/
theorem deleteEntry_spec (store : List CaffeineEntry) (user : SessionUser) (id : String)
    (hnd : (store.map (fun x => x.id)).Nodup) :
    (findEntry store id = none → deleteEntry store user id = (404, store)) ∧
    (∀ e, findEntry store id = some e → e.userId ≠ user.googleId →
      deleteEntry store user id = (403, store)) ∧
    (∀ e, findEntry store id = some e → e.userId = user.googleId →
      (deleteEntry store user id).1 = 200 ∧
      (∀ x, x ∈ (deleteEntry store user id).2 ↔ (x ∈ store ∧ x.id ≠ id))) := by
  refine ⟨?_, ?_, ?_⟩
  · intro h
    simp [deleteEntry, h]
  · intro e he hne
    simp [deleteEntry, he, hne]
  · intro e he hown
    have hres : deleteEntry store user id = (200, removeById store id) := by
      simp [deleteEntry, he, hown]
    rw [hres]
    exact ⟨rfl, removeById_mem id store hnd e he⟩

/-- Witness for C8: a one-entry store owned by "owner"; the caller "intruder"
gets 403 and the entry stays. -/
theorem deleteEntry_spec_witness :
    deleteEntry [⟨"e1", "Coffee", "Large", "Large Coffee", 100, "", 5, false,
        "owner", "Owen", none⟩] ⟨"intruder", "i@x.y", "Ivy", none⟩ "e1" =
      (403, [⟨"e1", "Coffee", "Large", "Large Coffee", 100, "", 5, false,
        "owner", "Owen", none⟩]) :=
  (deleteEntry_spec [⟨"e1", "Coffee", "Large", "Large Coffee", 100, "", 5, false,
        "owner", "Owen", none⟩] ⟨"intruder", "i@x.y", "Ivy", none⟩ "e1"
      (by decide)).2.1
    ⟨"e1", "Coffee", "Large", "Large Coffee", 100, "", 5, false,
        "owner", "Owen", none⟩ (by decide) (by decide)

/-- Counterexample to C9 as stated: with raw sizeName "Large " (trailing blank)
and drinkName "Coffee", the stored entry has fullName "Large  Coffee" (two inner
blanks), while trimming the concatenation of the STORED (trimmed) sizeName and
drinkName gives "Large Coffee"; the two differ. -/
theorem postEntries_fullName_cex :
    ((postEntries [] ⟨"g1", "a@b.c", "Ann", none⟩
        ⟨some "Coffee", some "Large ", some 100, none, none⟩ 17 "id1").2.map
      (fun e => (e.fullName, strTrim (e.sizeName ++ " " ++ e.drinkName)))) =
      [("Large  Coffee", "Large Coffee")] ∧
    ("Large  Coffee" : String) ≠ "Large Coffee" := by
  constructor
  · decide
  · decide

/-- **C9** (amended): on success the appended entry's fullName is the trim of the
RAW request sizeName, a single space, and the RAW request drinkName — only the
ends of the concatenation are trimmed, so inner whitespace carried by the raw
fields survives; drinkName and sizeName are stored trimmed. -/
theorem postEntries_fullName (store : List CaffeineEntry) (user : SessionUser)
    (body : EntryBody) (now : Int) (newId : String)
    (h : (postEntries store user body now newId).1 = 201) :
    ∃ e, (postEntries store user body now newId).2 = store ++ [e] ∧
      e.fullName = strTrim ((body.sizeName.getD "") ++ " " ++ (body.drinkName.getD "")) ∧
      e.drinkName = strTrim (body.drinkName.getD "") ∧
      e.sizeName = strTrim (body.sizeName.getD "") := by
  unfold postEntries at h ⊢
  cases hcond : (strFalsy body.drinkName || strFalsy body.sizeName || numFalsy body.caffeineMg ||
      decide (body.caffeineMg.getD 0 ≤ 0)) with
  | true =>
      rw [if_pos hcond] at h
      simp at h
  | false =>
      rw [if_neg (by simp [hcond])]
      exact ⟨_, rfl, rfl, rfl, rfl⟩

/-- Witness for C9: a successful post with raw sizeName "Large " stores
fullName "Large  Coffee" = strTrim ("Large " ++ " " ++ "Coffee"). -/
theorem postEntries_fullName_witness :
    ∃ e, (postEntries [] ⟨"g1", "a@b.c", "Ann", none⟩
        ⟨some "Coffee", some "Large ", some 100, none, none⟩ 17 "id1").2 = [] ++ [e] ∧
      e.fullName = strTrim (((some "Large " : Option String).getD "") ++ " " ++
        ((some "Coffee" : Option String).getD "")) ∧
      e.drinkName = strTrim ((some "Coffee" : Option String).getD "") ∧
      e.sizeName = strTrim ((some "Large " : Option String).getD "") :=
  postEntries_fullName _ _ _ _ _ (by decide)

/-- **C10**: soft-deleting a drink type hides its name from GET /api/types, yet
POST /api/types with any body whose name trims to that name is still rejected
with 400 and creates nothing, because the duplicate check searches soft-deleted
documents too.  Stated for stores with distinct ids in which the deleted type is
the only bearer of its name. -/
theorem types_soft_delete_dup (store : List DrinkTypeDoc) (t : DrinkTypeDoc)
    (hnd : (store.map (fun d => d.id)).Nodup)
    (ht : t ∈ store) (htd : t.deleted = false)
    (huniq : ∀ d ∈ store, d.name = t.name → d.id = t.id) :
    (deleteType store t.id).1 = 200 ∧
    (∀ d ∈ getTypes (deleteType store t.id).2, d.name ≠ t.name) ∧
    (∀ body : TypeBody, ∀ newId : String, body.name.map strTrim = some t.name →
      postTypes (deleteType store t.id).2 body newId = (400, (deleteType store t.id).2)) := by
  have hfind : store.find? (fun d => decide (d.id = t.id)) = some t :=
    find_id_nodup store hnd t ht
  have h200 : deleteType store t.id = (200, setDeletedById store t.id) := by
    simp [deleteType, hfind, htd]
  rw [h200]
  have hmem := setDeletedById_mem store hnd t ht
  refine ⟨rfl, ?_, ?_⟩
  · intro d hd hname
    rw [getTypes, mem_sortByName, List.mem_filter] at hd
    rcases (hmem d).mp hd.1 with ⟨hds, hdid⟩ | rfl
    · exact hdid (huniq d hds hname)
    · simp at hd
  · intro body newId hname
    cases hbn : body.name with
    | none => rw [hbn] at hname; simp at hname
    | some s =>
        rw [hbn] at hname
        simp only [Option.map_some', Option.some.injEq] at hname
        cases h1 : (strFalsy body.name || decide (body.sizes = none) ||
            decide ((body.sizes.getD []).length = 0)) with
        | true =>
            unfold postTypes
            rw [if_pos h1]
        | false =>
            cases h2 : ((body.sizes.getD []).any (fun s =>
                strFalsy s.name || numFalsy s.caffeineMg ||
                  decide (s.caffeineMg.getD 0 ≤ 0))) with
            | true =>
                unfold postTypes
                rw [if_neg (by simp only [Bool.not_eq_true]; exact h1), if_pos h2]
            | false =>
                have hex : ∃ d ∈ setDeletedById store t.id,
                    (fun d : DrinkTypeDoc =>
                      decide (d.name = strTrim (body.name.getD ""))) d = true := by
                  refine ⟨{ t with deleted := true }, (hmem _).mpr (Or.inr rfl), ?_⟩
                  simp [hbn, hname]
                obtain ⟨w, hw⟩ := Option.isSome_iff_exists.mp
                  (List.find?_isSome.mpr hex)
                unfold postTypes
                rw [if_neg (by simp only [Bool.not_eq_true]; exact h1),
                  if_neg (by simp only [Bool.not_eq_true]; exact h2), hw]

/-- Witness for C10: one stored type "Latte"; after soft delete GET lists no
names, yet posting a body whose name " Latte " trims to "Latte" is rejected
with 400 and the store is unchanged. -/
theorem types_soft_delete_dup_witness :
    (deleteType [⟨"t1", "Latte", "/img.png", [⟨"Small", 50⟩], false⟩] "t1").1 = 200 ∧
    ((getTypes (deleteType [⟨"t1", "Latte", "/img.png", [⟨"Small", 50⟩], false⟩] "t1").2).map
      (fun d => d.name)) = [] ∧
    postTypes (deleteType [⟨"t1", "Latte", "/img.png", [⟨"Small", 50⟩], false⟩] "t1").2
      ⟨some " Latte ", none, some [⟨some "Small", some 50⟩]⟩ "t2" =
      (400, (deleteType [⟨"t1", "Latte", "/img.png", [⟨"Small", 50⟩], false⟩] "t1").2) := by
  have h := types_soft_delete_dup [⟨"t1", "Latte", "/img.png", [⟨"Small", 50⟩], false⟩]
    ⟨"t1", "Latte", "/img.png", [⟨"Small", 50⟩], false⟩ (by decide) (by decide) (by decide)
    (by decide)
  exact ⟨h.1, by decide,
    h.2.2 ⟨some " Latte ", none, some [⟨some "Small", some 50⟩]⟩ "t2" (by decide)⟩
